import Mathlib

/-!
# FastMath transformation algebra: a shallow embedding

The C++ class templates of `src/mth` (`vec3<Type>`, `tensor<Type>`, `matr<Type>`,
`quat<Type>`, `camera<Type>`) are embedded as Lean structures over an arbitrary scalar type
`K`; a member function that changes its receiver returns the new value of the receiver.
Member functions become functions on these structures and keep the names of the
source; a C++ operator is named after the operation it overloads and its doc
comment quotes the operator.

Scalars are exact unless a theorem says otherwise: the template parameter `Type` is read as
a ring or a field, so the theorems speak about the formulas of the code and not about the
rounding of `float`/`double`.  Where the rounding decides what the code returns, the same
definitions are evaluated in the arithmetic of `double`, the type `DBL` below.  Functions of
`<cmath>` (`sin`, `acos`, `sqrt`) are parameters of the definitions that call them, which
keeps every definition computable; the theorems about real arithmetic instantiate them with
`Real.sin`, `Real.arccos` and `Real.sqrt`.
-/

namespace mth

/-! ## Data model -/

/-- Class `vec3<Type>` of `mth_vec3.h`: the three members `X, Y, Z`. -/
@[ext]
structure vec3 (K : Type) where
  X : K
  Y : K
  Z : K
deriving DecidableEq, Repr

/-- Class `tensor<Type>` of `mth_tensor.h`: the member `Type A[3][3]`, field `Aij` being
`A[i][j]`.  The field order is the argument order of the nine-number constructor. -/
@[ext]
structure tensor (K : Type) where
  A00 : K
  A01 : K
  A02 : K
  A10 : K
  A11 : K
  A12 : K
  A20 : K
  A21 : K
  A22 : K
deriving DecidableEq, Repr

/-- Class `matr<Type>` of `mth_matr.h`: the member `Type A[4][4]`, field `Aij` being
`A[i][j]`.  The field order is the argument order of the sixteen-number constructor. -/
@[ext]
structure matr (K : Type) where
  A00 : K
  A01 : K
  A02 : K
  A03 : K
  A10 : K
  A11 : K
  A12 : K
  A13 : K
  A20 : K
  A21 : K
  A22 : K
  A23 : K
  A30 : K
  A31 : K
  A32 : K
  A33 : K
deriving DecidableEq, Repr

/-- Class `quat<Type>` of `mth_quat.h`: the vector part `X, Y, Z` (the union member `Vec`
overlays the same three numbers) and the scalar part `W`.  The field order is the argument
order of the constructor `quat(A, B, C, D)`. -/
@[ext]
structure quat (K : Type) where
  X : K
  Y : K
  Z : K
  W : K
deriving DecidableEq, Repr

/-! ## `vec3` -/

namespace vec3

variable {K : Type}

/-- Source: `vec3::operator-( void )`: `vec3(-X, -Y, -Z)`. -/
def neg [Neg K] (a : vec3 K) : vec3 K := ⟨-a.X, -a.Y, -a.Z⟩

/-- Source: `vec3::operator*( const Type N )`: `vec3(X * N, Y * N, Z * N)`. -/
def mulScalar [Mul K] (a : vec3 K) (N : K) : vec3 K := ⟨a.X * N, a.Y * N, a.Z * N⟩

/-- Source: `vec3::operator&` (dot product): `X * V.X + Y * V.Y + Z * V.Z`. -/
def dot [Add K] [Mul K] (a V : vec3 K) : K := a.X * V.X + a.Y * V.Y + a.Z * V.Z

/-- Source: `vec3::operator%` (cross product):
`vec3(Y * V.Z - Z * V.Y, -X * V.Z + Z * V.X, X * V.Y - Y * V.X)`. -/
def cross [Add K] [Sub K] [Mul K] [Neg K] (a V : vec3 K) : vec3 K :=
  ⟨a.Y * V.Z - a.Z * V.Y, -a.X * V.Z + a.Z * V.X, a.X * V.Y - a.Y * V.X⟩

/-- Source: `vec3::Length2`: `X * X + Y * Y + Z * Z`. -/
def Length2 [Add K] [Mul K] (a : vec3 K) : K := a.X * a.X + a.Y * a.Y + a.Z * a.Z

/-- Source: `vec3::operator-( const vec3 &V )`: `vec3(X - V.X, Y - V.Y, Z - V.Z)`. -/
def sub [Sub K] (a V : vec3 K) : vec3 K := ⟨a.X - V.X, a.Y - V.Y, a.Z - V.Z⟩

/-- Source: `vec3::operator/( const Type N )` and `operator/=`: `vec3(X / N, Y / N, Z / N)`. -/
def divScalar [Div K] (a : vec3 K) (N : K) : vec3 K := ⟨a.X / N, a.Y / N, a.Z / N⟩

/-- Source: `vec3::Length`: `sqrt(X * X + Y * Y + Z * Z)`, the square root of `<cmath>`
being a parameter. -/
def Length [Add K] [Mul K] (sqrt : K → K) (a : vec3 K) : K :=
  sqrt (a.X * a.X + a.Y * a.Y + a.Z * a.Z)

/-- Source: `vec3::Normalize`: `if (X == 0 && Y == 0 && Z == 0) return *this;` and
otherwise `*this /= Length()`.  The value returned is the value of the receiver after
the call. -/
def Normalize [Zero K] [Add K] [Mul K] [Div K] [DecidableEq K] (sqrt : K → K) (a : vec3 K) :
    vec3 K :=
  if a.X = 0 ∧ a.Y = 0 ∧ a.Z = 0 then a
  else a.divScalar (a.Length sqrt)

/-- Source: `vec3::Normalizing`: `if (X == 0 && Y == 0 && Z == 0) return vec3(0);` and
otherwise `*this / Length()`. -/
def Normalizing [Zero K] [Add K] [Mul K] [Div K] [DecidableEq K] (sqrt : K → K) (a : vec3 K) :
    vec3 K :=
  if a.X = 0 ∧ a.Y = 0 ∧ a.Z = 0 then ⟨0, 0, 0⟩
  else a.divScalar (a.Length sqrt)

/-- Source: `vec3::operator+( const vec3 &V )`: `vec3(X + V.X, Y + V.Y, Z + V.Z)`. -/
def add [Add K] (a V : vec3 K) : vec3 K := ⟨a.X + V.X, a.Y + V.Y, a.Z + V.Z⟩

/-- Source: `vec3::operator*( const vec3 &V )`, the component-wise product:
`vec3(X * V.X, Y * V.Y, Z * V.Z)`. -/
def mul [Mul K] (a V : vec3 K) : vec3 K := ⟨a.X * V.X, a.Y * V.Y, a.Z * V.Z⟩

end vec3

/-! ## `tensor` -/

namespace tensor

variable {K : Type}

/-- Source: `tensor::operator*( const tensor &m )`, row-by-column product. -/
def mul [Add K] [Mul K] (t m : tensor K) : tensor K :=
  { A00 := t.A00 * m.A00 + t.A01 * m.A10 + t.A02 * m.A20
    A01 := t.A00 * m.A01 + t.A01 * m.A11 + t.A02 * m.A21
    A02 := t.A00 * m.A02 + t.A01 * m.A12 + t.A02 * m.A22
    A10 := t.A10 * m.A00 + t.A11 * m.A10 + t.A12 * m.A20
    A11 := t.A10 * m.A01 + t.A11 * m.A11 + t.A12 * m.A21
    A12 := t.A10 * m.A02 + t.A11 * m.A12 + t.A12 * m.A22
    A20 := t.A20 * m.A00 + t.A21 * m.A10 + t.A22 * m.A20
    A21 := t.A20 * m.A01 + t.A21 * m.A11 + t.A22 * m.A21
    A22 := t.A20 * m.A02 + t.A21 * m.A12 + t.A22 * m.A22 }

/-- Source: `tensor::operator*( const vec3<Type> &V )`: component `i` of the result is
`V[0] * A[0][i] + V[1] * A[1][i] + V[2] * A[2][i]` (the vector is a row on the left). -/
def mulVec [Add K] [Mul K] (t : tensor K) (V : vec3 K) : vec3 K :=
  ⟨V.X * t.A00 + V.Y * t.A10 + V.Z * t.A20,
   V.X * t.A01 + V.Y * t.A11 + V.Z * t.A21,
   V.X * t.A02 + V.Y * t.A12 + V.Z * t.A22⟩

/-- Source: `tensor::Determ3x3`. -/
def Determ3x3 [Ring K] (t : tensor K) : K :=
  t.A00 * (t.A11 * t.A22 - t.A12 * t.A21) +
  t.A01 * (t.A12 * t.A20 - t.A10 * t.A22) +
  t.A02 * (t.A10 * t.A21 - t.A11 * t.A20)

/-- Source: `tensor::operator!`: the determinant, `Determ3x3()`. -/
def det [Ring K] (t : tensor K) : K := t.Determ3x3

/-- Source: `tensor::Identity`. -/
def Identity [Zero K] [One K] : tensor K :=
  ⟨1, 0, 0,
   0, 1, 0,
   0, 0, 1⟩

/-- Source: `tensor::Transpose`. -/
def Transpose (t : tensor K) : tensor K :=
  ⟨t.A00, t.A10, t.A20,
   t.A01, t.A11, t.A21,
   t.A02, t.A12, t.A22⟩

/-- Source: `tensor::Inverse`.  `if (det == 0) return Identity();` comes first; otherwise the
nine entries are written exactly as in the source, each times `RevDet = 1 / det`
(the second entry is `A[0][2] * A[2][1] - A[0][1] * A[2][1]` there). -/
def Inverse [Ring K] [Div K] [DecidableEq K] (t : tensor K) : tensor K :=
  let det := t.det
  if det = 0 then Identity
  else
    let RevDet := 1 / det
    { A00 := (t.A11 * t.A22 - t.A12 * t.A21) * RevDet
      A01 := (t.A02 * t.A21 - t.A01 * t.A21) * RevDet
      A02 := (t.A01 * t.A12 - t.A02 * t.A11) * RevDet
      A10 := (t.A12 * t.A20 - t.A10 * t.A22) * RevDet
      A11 := (t.A00 * t.A22 - t.A02 * t.A20) * RevDet
      A12 := (t.A02 * t.A10 - t.A00 * t.A12) * RevDet
      A20 := (t.A10 * t.A21 - t.A11 * t.A20) * RevDet
      A21 := (t.A01 * t.A20 - t.A00 * t.A21) * RevDet
      A22 := (t.A00 * t.A11 - t.A01 * t.A10) * RevDet }

/-- Source: `tensor::Star`:
`tensor(0, -W[2], W[1],  W[2], 0, -W[0],  -W[1], W[0], 0)`. -/
def Star [Zero K] [Neg K] (W : vec3 K) : tensor K :=
  ⟨0, -W.Z, W.Y,
   W.Z, 0, -W.X,
   -W.Y, W.X, 0⟩

/-- Source: `tensor::operator*=`: `const tensor s = *this;` and then the nine assignments to
`A[i][j]`, in the order of the source, each reading the snapshot `s` and the argument `m`.
`rd` gives the value that the reference `m` denotes while the receiver holds a given value: a
constant function when `m` is another object, the identity when `m` is the receiver itself. -/
def mulAssignWith [Add K] [Mul K] (rd : tensor K → tensor K) (a : tensor K) : tensor K :=
  let s := a
  let a := { a with A00 := s.A00 * (rd a).A00 + s.A01 * (rd a).A10 + s.A02 * (rd a).A20 }
  let a := { a with A01 := s.A00 * (rd a).A01 + s.A01 * (rd a).A11 + s.A02 * (rd a).A21 }
  let a := { a with A02 := s.A00 * (rd a).A02 + s.A01 * (rd a).A12 + s.A02 * (rd a).A22 }
  let a := { a with A10 := s.A10 * (rd a).A00 + s.A11 * (rd a).A10 + s.A12 * (rd a).A20 }
  let a := { a with A11 := s.A10 * (rd a).A01 + s.A11 * (rd a).A11 + s.A12 * (rd a).A21 }
  let a := { a with A12 := s.A10 * (rd a).A02 + s.A11 * (rd a).A12 + s.A12 * (rd a).A22 }
  let a := { a with A20 := s.A20 * (rd a).A00 + s.A21 * (rd a).A10 + s.A22 * (rd a).A20 }
  let a := { a with A21 := s.A20 * (rd a).A01 + s.A21 * (rd a).A11 + s.A22 * (rd a).A21 }
  let a := { a with A22 := s.A20 * (rd a).A02 + s.A21 * (rd a).A12 + s.A22 * (rd a).A22 }
  a

/-- Source: `tensor::operator*=` called with an argument held in another object: the pair of
the receiver and the argument after the call. -/
def mulAssign [Add K] [Mul K] (a m : tensor K) : tensor K × tensor K :=
  (mulAssignWith (fun _ => m) a, m)

end tensor

/-! ## `matr` -/

namespace matr

variable {K : Type}

/-- Source: the private static `matr::Determ3x3` of nine numbers. -/
def Determ3x3 [Add K] [Sub K] [Mul K] (A11 A12 A13 A21 A22 A23 A31 A32 A33 : K) : K :=
  A11 * (A22 * A33 - A23 * A32) +
  A12 * (A23 * A31 - A21 * A33) +
  A13 * (A21 * A32 - A22 * A31)

/-- Source: `matr::Determ4x4`, expansion along row 0. -/
def Determ4x4 [Add K] [Sub K] [Mul K] [Neg K] (M : matr K) : K :=
  M.A00 * Determ3x3 M.A11 M.A12 M.A13
                    M.A21 M.A22 M.A23
                    M.A31 M.A32 M.A33 +
  -M.A01 * Determ3x3 M.A10 M.A12 M.A13
                     M.A20 M.A22 M.A23
                     M.A30 M.A32 M.A33 +
  M.A02 * Determ3x3 M.A10 M.A11 M.A13
                    M.A20 M.A21 M.A23
                    M.A30 M.A31 M.A33 +
  -M.A03 * Determ3x3 M.A10 M.A11 M.A12
                     M.A20 M.A21 M.A22
                     M.A30 M.A31 M.A32

/-- Source: `matr::operator!`: the determinant, `Determ4x4()`. -/
def det [Add K] [Sub K] [Mul K] [Neg K] (M : matr K) : K := M.Determ4x4

/-- Source: `matr::operator*( const matr &m )`, row-by-column product. -/
def mul [Add K] [Mul K] (a m : matr K) : matr K :=
  { A00 := a.A00 * m.A00 + a.A01 * m.A10 + a.A02 * m.A20 + a.A03 * m.A30
    A01 := a.A00 * m.A01 + a.A01 * m.A11 + a.A02 * m.A21 + a.A03 * m.A31
    A02 := a.A00 * m.A02 + a.A01 * m.A12 + a.A02 * m.A22 + a.A03 * m.A32
    A03 := a.A00 * m.A03 + a.A01 * m.A13 + a.A02 * m.A23 + a.A03 * m.A33
    A10 := a.A10 * m.A00 + a.A11 * m.A10 + a.A12 * m.A20 + a.A13 * m.A30
    A11 := a.A10 * m.A01 + a.A11 * m.A11 + a.A12 * m.A21 + a.A13 * m.A31
    A12 := a.A10 * m.A02 + a.A11 * m.A12 + a.A12 * m.A22 + a.A13 * m.A32
    A13 := a.A10 * m.A03 + a.A11 * m.A13 + a.A12 * m.A23 + a.A13 * m.A33
    A20 := a.A20 * m.A00 + a.A21 * m.A10 + a.A22 * m.A20 + a.A23 * m.A30
    A21 := a.A20 * m.A01 + a.A21 * m.A11 + a.A22 * m.A21 + a.A23 * m.A31
    A22 := a.A20 * m.A02 + a.A21 * m.A12 + a.A22 * m.A22 + a.A23 * m.A32
    A23 := a.A20 * m.A03 + a.A21 * m.A13 + a.A22 * m.A23 + a.A23 * m.A33
    A30 := a.A30 * m.A00 + a.A31 * m.A10 + a.A32 * m.A20 + a.A33 * m.A30
    A31 := a.A30 * m.A01 + a.A31 * m.A11 + a.A32 * m.A21 + a.A33 * m.A31
    A32 := a.A30 * m.A02 + a.A31 * m.A12 + a.A32 * m.A22 + a.A33 * m.A32
    A33 := a.A30 * m.A03 + a.A31 * m.A13 + a.A32 * m.A23 + a.A33 * m.A33 }

/-- Source: `matr::Identity`. -/
def Identity [Zero K] [One K] : matr K :=
  ⟨1, 0, 0, 0,
   0, 1, 0, 0,
   0, 0, 1, 0,
   0, 0, 0, 1⟩

/-- Source: `matr::Inverse`.  `if (det == 0) return Identity();` comes first; otherwise
entry `r.A[i][j]` is the signed 3x3 minor of the source divided by `det`, in the source's
order of rows and columns. -/
def Inverse [Zero K] [One K] [Add K] [Sub K] [Mul K] [Neg K] [Div K] [DecidableEq K]
    (M : matr K) : matr K :=
  let det := M.det
  if det = 0 then Identity
  else
    { A00 := Determ3x3 M.A11 M.A12 M.A13 M.A21 M.A22 M.A23 M.A31 M.A32 M.A33 / det
      A10 := -Determ3x3 M.A10 M.A12 M.A13 M.A20 M.A22 M.A23 M.A30 M.A32 M.A33 / det
      A20 := Determ3x3 M.A10 M.A11 M.A13 M.A20 M.A21 M.A23 M.A30 M.A31 M.A33 / det
      A30 := -Determ3x3 M.A10 M.A11 M.A12 M.A20 M.A21 M.A22 M.A30 M.A31 M.A32 / det
      A01 := -Determ3x3 M.A01 M.A02 M.A03 M.A21 M.A22 M.A23 M.A31 M.A32 M.A33 / det
      A11 := Determ3x3 M.A00 M.A02 M.A03 M.A20 M.A22 M.A23 M.A30 M.A32 M.A33 / det
      A21 := -Determ3x3 M.A00 M.A01 M.A03 M.A20 M.A21 M.A23 M.A30 M.A31 M.A33 / det
      A31 := Determ3x3 M.A00 M.A01 M.A02 M.A20 M.A21 M.A22 M.A30 M.A31 M.A32 / det
      A02 := Determ3x3 M.A01 M.A02 M.A03 M.A11 M.A12 M.A13 M.A31 M.A32 M.A33 / det
      A12 := -Determ3x3 M.A00 M.A02 M.A03 M.A10 M.A12 M.A13 M.A30 M.A32 M.A33 / det
      A22 := Determ3x3 M.A00 M.A01 M.A03 M.A10 M.A11 M.A13 M.A30 M.A31 M.A33 / det
      A32 := -Determ3x3 M.A00 M.A01 M.A02 M.A10 M.A11 M.A12 M.A30 M.A31 M.A32 / det
      A03 := -Determ3x3 M.A01 M.A02 M.A03 M.A11 M.A12 M.A13 M.A21 M.A22 M.A23 / det
      A13 := Determ3x3 M.A00 M.A02 M.A03 M.A10 M.A12 M.A13 M.A20 M.A22 M.A23 / det
      A23 := -Determ3x3 M.A00 M.A01 M.A03 M.A10 M.A11 M.A13 M.A20 M.A21 M.A23 / det
      A33 := Determ3x3 M.A00 M.A01 M.A02 M.A10 M.A11 M.A12 M.A20 M.A21 M.A22 / det }

/-- Source: `matr::Transpose`. -/
def Transpose (M : matr K) : matr K :=
  ⟨M.A00, M.A10, M.A20, M.A30,
   M.A01, M.A11, M.A21, M.A31,
   M.A02, M.A12, M.A22, M.A32,
   M.A03, M.A13, M.A23, M.A33⟩

/-- Source: `matr::VectorTransform`: the row vector `V` times the upper-left 3x3 block. -/
def VectorTransform [Add K] [Mul K] (M : matr K) (V : vec3 K) : vec3 K :=
  ⟨V.X * M.A00 + V.Y * M.A10 + V.Z * M.A20,
   V.X * M.A01 + V.Y * M.A11 + V.Z * M.A21,
   V.X * M.A02 + V.Y * M.A12 + V.Z * M.A22⟩

/-- Source: `matr::NormalTransform`: `const matr M = Inverse().Transpose();` and then the
row vector `V` times the upper-left 3x3 block of `M`. -/
def NormalTransform [Ring K] [Div K] [DecidableEq K] (A : matr K) (V : vec3 K) : vec3 K :=
  let M := A.Inverse.Transpose
  ⟨V.X * M.A00 + V.Y * M.A10 + V.Z * M.A20,
   V.X * M.A01 + V.Y * M.A11 + V.Z * M.A21,
   V.X * M.A02 + V.Y * M.A12 + V.Z * M.A22⟩

/-- Source: `matr::View`.  `Dir = (At - Loc).Normalize()`, `Right = (Dir % Up1).Normalize()`,
`Up = Right % Dir`; the three vectors fill the first three columns (the third negated) and
the last row is `(-Loc & Right, -Loc & Up, (Loc & Dir), 1)`. -/
def View [Zero K] [One K] [Add K] [Sub K] [Mul K] [Neg K] [Div K] [DecidableEq K]
    (sqrt : K → K) (Loc At Up1 : vec3 K) : matr K :=
  let Dir := (At.sub Loc).Normalize sqrt
  let Right := (Dir.cross Up1).Normalize sqrt
  let Up := Right.cross Dir
  ⟨Right.X, Up.X, -Dir.X, 0,
   Right.Y, Up.Y, -Dir.Y, 0,
   Right.Z, Up.Z, -Dir.Z, 0,
   Loc.neg.dot Right, Loc.neg.dot Up, Loc.dot Dir, 1⟩

/-- Source: `matr::Frustum( Left, Right, Top, Bottom, Near, Far )`, the parameters in the
order of the declaration. -/
def Frustum [Field K] (Left Right Top Bottom Near Far : K) : matr K :=
  ⟨2 * Near / (Right - Left), 0, 0, 0,
   0, 2 * Near / (Top - Bottom), 0, 0,
   (Right + Left) / (Right - Left), (Top + Bottom) / (Top - Bottom),
     (Far + Near) / (Near - Far), -1,
   0, 0, 2 * Near * Far / (Near - Far), 0⟩

/-- Source: `matr::operator*=`: `const matr<Type> s = *this;` and then the sixteen
assignments to `A[i][j]`, in the order of the source (they are joined by the comma operator,
which evaluates from left to right), each reading the snapshot `s` and the argument `m`.
`rd` gives the value that the reference `m` denotes while the receiver holds a given value: a
constant function when `m` is another object, the identity when `m` is the receiver itself. -/
def mulAssignWith [Add K] [Mul K] (rd : matr K → matr K) (a : matr K) : matr K :=
  let s := a
  let a := { a with A00 := s.A00 * (rd a).A00 + s.A01 * (rd a).A10 + s.A02 * (rd a).A20 + s.A03 * (rd a).A30 }
  let a := { a with A01 := s.A00 * (rd a).A01 + s.A01 * (rd a).A11 + s.A02 * (rd a).A21 + s.A03 * (rd a).A31 }
  let a := { a with A02 := s.A00 * (rd a).A02 + s.A01 * (rd a).A12 + s.A02 * (rd a).A22 + s.A03 * (rd a).A32 }
  let a := { a with A03 := s.A00 * (rd a).A03 + s.A01 * (rd a).A13 + s.A02 * (rd a).A23 + s.A03 * (rd a).A33 }
  let a := { a with A10 := s.A10 * (rd a).A00 + s.A11 * (rd a).A10 + s.A12 * (rd a).A20 + s.A13 * (rd a).A30 }
  let a := { a with A11 := s.A10 * (rd a).A01 + s.A11 * (rd a).A11 + s.A12 * (rd a).A21 + s.A13 * (rd a).A31 }
  let a := { a with A12 := s.A10 * (rd a).A02 + s.A11 * (rd a).A12 + s.A12 * (rd a).A22 + s.A13 * (rd a).A32 }
  let a := { a with A13 := s.A10 * (rd a).A03 + s.A11 * (rd a).A13 + s.A12 * (rd a).A23 + s.A13 * (rd a).A33 }
  let a := { a with A20 := s.A20 * (rd a).A00 + s.A21 * (rd a).A10 + s.A22 * (rd a).A20 + s.A23 * (rd a).A30 }
  let a := { a with A21 := s.A20 * (rd a).A01 + s.A21 * (rd a).A11 + s.A22 * (rd a).A21 + s.A23 * (rd a).A31 }
  let a := { a with A22 := s.A20 * (rd a).A02 + s.A21 * (rd a).A12 + s.A22 * (rd a).A22 + s.A23 * (rd a).A32 }
  let a := { a with A23 := s.A20 * (rd a).A03 + s.A21 * (rd a).A13 + s.A22 * (rd a).A23 + s.A23 * (rd a).A33 }
  let a := { a with A30 := s.A30 * (rd a).A00 + s.A31 * (rd a).A10 + s.A32 * (rd a).A20 + s.A33 * (rd a).A30 }
  let a := { a with A31 := s.A30 * (rd a).A01 + s.A31 * (rd a).A11 + s.A32 * (rd a).A21 + s.A33 * (rd a).A31 }
  let a := { a with A32 := s.A30 * (rd a).A02 + s.A31 * (rd a).A12 + s.A32 * (rd a).A22 + s.A33 * (rd a).A32 }
  let a := { a with A33 := s.A30 * (rd a).A03 + s.A31 * (rd a).A13 + s.A32 * (rd a).A23 + s.A33 * (rd a).A33 }
  a

/-- Source: `matr::operator*=` called with an argument held in another object: the pair of
the receiver and the argument after the call. -/
def mulAssign [Add K] [Mul K] (a m : matr K) : matr K × matr K :=
  (mulAssignWith (fun _ => m) a, m)

/-- Source: `matr::Translate`. -/
def Translate [Zero K] [One K] (T : vec3 K) : matr K :=
  ⟨1, 0, 0, 0,
   0, 1, 0, 0,
   0, 0, 1, 0,
   T.X, T.Y, T.Z, 1⟩

/-- Source: `matr::Scale( const vec3<Type> &S )`. -/
def Scale [Zero K] [One K] (S : vec3 K) : matr K :=
  ⟨S.X, 0, 0, 0,
   0, S.Y, 0, 0,
   0, 0, S.Z, 0,
   0, 0, 0, 1⟩

/-- Source: the overload `matr::Scale( const Type A )`, the uniform scale. -/
def ScaleScalar [Zero K] [One K] (A : K) : matr K :=
  ⟨A, 0, 0, 0,
   0, A, 0, 0,
   0, 0, A, 0,
   0, 0, 0, 1⟩

/-- Source: `matr::PointTransform`: the row vector `V` times the upper-left 3x3 block, plus
the first three entries of row 3. -/
def PointTransform [Add K] [Mul K] (M : matr K) (V : vec3 K) : vec3 K :=
  ⟨V.X * M.A00 + V.Y * M.A10 + V.Z * M.A20 + M.A30,
   V.X * M.A01 + V.Y * M.A11 + V.Z * M.A21 + M.A31,
   V.X * M.A02 + V.Y * M.A12 + V.Z * M.A22 + M.A32⟩

/-- Source: `matr::Ortho( Left, Right, Bottom, Top, Near, Far )`, the parameters in the order
of the declaration. -/
def Ortho [Field K] (Left Right Bottom Top Near Far : K) : matr K :=
  ⟨2 / (Right - Left), 0, 0, 0,
   0, 2 / (Top - Bottom), 0, 0,
   0, 0, -2 / (Far - Near), 0,
   -(Left + Right) / (Right - Left), -(Top + Bottom) / (Top - Bottom),
     -(Far + Near) / (Far - Near), 1⟩

/-- Source: the default constructor `matr( void ) = default` with the default member
initialiser `Type A[4][4] = {}`: all sixteen entries are zero. -/
def ctor [Zero K] : matr K :=
  ⟨0, 0, 0, 0,
   0, 0, 0, 0,
   0, 0, 0, 0,
   0, 0, 0, 0⟩

/-- Source: `matr::Transform4x4`: `w = 1 / (V[0] * A[0][3] + V[1] * A[1][3] + V[2] * A[2][3] + A[3][3])`
and the three components of `PointTransform` times `w`; the source has no test before the
division.  Where the divisor is zero the quotient has no value in exact arithmetic, and the
result is `none`. -/
def Transform4x4 [Field K] [DecidableEq K] (M : matr K) (V : vec3 K) : Option (vec3 K) :=
  let d := V.X * M.A03 + V.Y * M.A13 + V.Z * M.A23 + M.A33
  if d = 0 then none
  else
    let w := 1 / d
    some ⟨(V.X * M.A00 + V.Y * M.A10 + V.Z * M.A20 + M.A30) * w,
          (V.X * M.A01 + V.Y * M.A11 + V.Z * M.A21 + M.A31) * w,
          (V.X * M.A02 + V.Y * M.A12 + V.Z * M.A22 + M.A32) * w⟩

/-- The sixteen entries of a `matr` as a matrix of Mathlib, entry `(i, j)` being `A[i][j]`. -/
def toMatrix (M : matr K) : Matrix (Fin 4) (Fin 4) K :=
  !![M.A00, M.A01, M.A02, M.A03;
     M.A10, M.A11, M.A12, M.A13;
     M.A20, M.A21, M.A22, M.A23;
     M.A30, M.A31, M.A32, M.A33]

/-- The upper-left 3x3 block of a `matr` as a matrix of Mathlib. -/
def block3 (M : matr K) : Matrix (Fin 3) (Fin 3) K :=
  !![M.A00, M.A01, M.A02;
     M.A10, M.A11, M.A12;
     M.A20, M.A21, M.A22]

end matr

/-! ## `quat` -/

namespace quat

variable {K : Type}

/-- Source: the constructor `quat( const Type A, const vec3<Type> &V )`:
`X(V.X), Y(V.Y), Z(V.Z), W(A)`. -/
def ofScalarVec (A : K) (V : vec3 K) : quat K := ⟨V.X, V.Y, V.Z, A⟩

/-- Source: the union member `Vec`, the vector part `(X, Y, Z)`. -/
def Vec (q : quat K) : vec3 K := ⟨q.X, q.Y, q.Z⟩

/-- Source: `quat::operator-( void )`: `quat(-X, -Y, -Z, -W)`. -/
def neg [Neg K] (q : quat K) : quat K := ⟨-q.X, -q.Y, -q.Z, -q.W⟩

/-- Source: `quat::operator*( const quat &Q )`, the Hamilton product. -/
def mul [Ring K] (q Q : quat K) : quat K :=
  ⟨q.W * Q.X + q.X * Q.W + q.Y * Q.Z - q.Z * Q.Y,
   q.W * Q.Y - q.X * Q.Z + q.Y * Q.W + q.Z * Q.X,
   q.W * Q.Z + q.X * Q.Y - q.Y * Q.X + q.Z * Q.W,
   q.W * Q.W - q.X * Q.X - q.Y * Q.Y - q.Z * Q.Z⟩

/-- Source: `quat::operator*( const Type Q )`: `quat(X * Q, Y * Q, Z * Q, W * Q)`. -/
def mulScalar [Mul K] (q : quat K) (Q : K) : quat K := ⟨q.X * Q, q.Y * Q, q.Z * Q, q.W * Q⟩

/-- Source: `quat::operator/( const Type Q )`: `quat(X / Q, Y / Q, Z / Q, W / Q)`. -/
def divScalar [Div K] (q : quat K) (Q : K) : quat K := ⟨q.X / Q, q.Y / Q, q.Z / Q, q.W / Q⟩

/-- Source: `quat::operator!`, the squared norm `W * W + X * X + Y * Y + Z * Z`. -/
def normSq [Add K] [Mul K] (q : quat K) : K := q.W * q.W + q.X * q.X + q.Y * q.Y + q.Z * q.Z

/-- Source: `quat::operator/( const quat &Q )`: `(*this) * (quat(Q.W, -Q.Vec) / !Q)`. -/
def div [Ring K] [Div K] (q Q : quat K) : quat K :=
  q.mul ((ofScalarVec Q.W Q.Vec.neg).divScalar Q.normSq)

/-- Source: `quat::Normalized`: `const Type sq = sqrt(!*this);` and
`quat(X / sq, Y / sq, Z / sq, W / sq)`; the source has no test before the four divisions.
Where `sq` is zero the quotients have no value in exact arithmetic (`0 / 0` is a NaN in
floating point), and the result is `none`. -/
def Normalized [Add K] [Mul K] [Zero K] [Div K] [DecidableEq K] (sqrt : K → K) (q : quat K) :
    Option (quat K) :=
  let sq := sqrt q.normSq
  if sq = 0 then none
  else some ⟨q.X / sq, q.Y / sq, q.Z / sq, q.W / sq⟩

/-- Source: `quat::RotateMatr`. -/
def RotateMatr [Ring K] (q : quat K) : matr K :=
  let X2 := 2 * q.X * q.X
  let Y2 := 2 * q.Y * q.Y
  let Z2 := 2 * q.Z * q.Z
  let XZ := 2 * q.X * q.Z
  let XY := 2 * q.X * q.Y
  let YZ := 2 * q.Y * q.Z
  let WX := 2 * q.W * q.X
  let WY := 2 * q.W * q.Y
  let WZ := 2 * q.W * q.Z
  ⟨1 - Y2 - Z2, XY + WZ,     XZ - WY,     0,
   XY - WZ,     1 - X2 - Z2, YZ + WX,     0,
   XZ + WY,     YZ - WX,     1 - X2 - Y2, 0,
   0,           0,           0,           1⟩

/-- Source: `quat::RotateTensor`. -/
def RotateTensor [Ring K] (q : quat K) : tensor K :=
  let X2 := 2 * q.X * q.X
  let Y2 := 2 * q.Y * q.Y
  let Z2 := 2 * q.Z * q.Z
  let XY := 2 * q.X * q.Y
  let WZ := 2 * q.W * q.Z
  let WY := 2 * q.W * q.Y
  let XZ := 2 * q.X * q.Z
  let YZ := 2 * q.Y * q.Z
  let WX := 2 * q.W * q.X
  ⟨1 - Y2 - Z2, XY + WZ,     XZ - WY,
   XY - WZ,     1 - X2 - Z2, YZ + WX,
   XZ + WY,     YZ - WX,     1 - X2 - Y2⟩

/-- Source: `quat::SLerp`.  `cos_a0` is `cos_a` before the test `if (cos_a < 0)`, which
negates both `cos_a` and `b`.  The only division of the function is `1 / sin(alpha)`; where
`sin(alpha)` is zero the quotient has no value in exact arithmetic (the floating-point code
produces an infinity there and then a NaN or an infinity in every component), and the
result is `none`. -/
def SLerp [LinearOrderedField K] (sin acos : K → K) (T : K) (Q1 Q2 : quat K) :
    Option (quat K) :=
  let cos_a0 := Q1.W * Q2.W + Q1.X * Q2.X + Q1.Y * Q2.Y + Q1.Z * Q2.Z
  let a := Q1
  let cos_a := if cos_a0 < 0 then -cos_a0 else cos_a0
  let b := if cos_a0 < 0 then Q2.neg else Q2
  let alpha := acos cos_a
  if sin alpha = 0 then none
  else
    let sin_a_rev := 1 / sin alpha
    let sin_ta := sin (T * alpha)
    let sin_1_ta := sin ((1 - T) * alpha)
    some ⟨(a.X * sin_1_ta + b.X * sin_ta) * sin_a_rev,
          (a.Y * sin_1_ta + b.Y * sin_ta) * sin_a_rev,
          (a.Z * sin_1_ta + b.Z * sin_ta) * sin_a_rev,
          (a.W * sin_1_ta + b.W * sin_ta) * sin_a_rev⟩

end quat

/-! ## `camera` -/

/-- Class `camera<Type>` of `mth_camera.h`, with its public members: the frame size in
pixels (`int`), the five vectors, the projection data and the three matrices. -/
@[ext]
structure camera (K : Type) where
  FrameW : Int
  FrameH : Int
  Loc : vec3 K
  Dir : vec3 K
  Right : vec3 K
  Up : vec3 K
  At : vec3 K
  FarClip : K
  Wp : K
  Hp : K
  ProjDist : K
  ProjSize : K
  MatrView : matr K
  MatrProj : matr K
  MatrVP : matr K
deriving DecidableEq, Repr

namespace camera

variable {K : Type}

/-- Source: `camera::ProjSet`.  `Wp = Hp = ProjSize;` then
`if (FrameW > FrameH) Wp *= static_cast<DBL>(FrameW) / FrameH; else Hp *= static_cast<DBL>(FrameH) / FrameW;`
then `MatrProj = Frustum(-Wp / 2, Wp / 2, -Hp / 2, Hp / 2, ProjDist, FarClip)` and
`MatrVP = MatrView * MatrProj`.  The frame sizes are cast from `int` to the scalars. -/
def ProjSet [Field K] (c : camera K) : camera K :=
  let Hp0 := c.ProjSize
  let Wp0 := Hp0
  let Wp := if c.FrameW > c.FrameH then Wp0 * ((c.FrameW : K) / (c.FrameH : K)) else Wp0
  let Hp := if c.FrameW > c.FrameH then Hp0 else Hp0 * ((c.FrameH : K) / (c.FrameW : K))
  let MatrProj := matr.Frustum (-Wp / 2) (Wp / 2) (-Hp / 2) (Hp / 2) c.ProjDist c.FarClip
  { c with Wp := Wp, Hp := Hp, MatrProj := MatrProj, MatrVP := c.MatrView.mul MatrProj }

/-- Source: `camera::Resize`: `if (W == 0 || H == 0) return *this;` and otherwise
`FrameW = W; FrameH = H; ProjSet();`. -/
def Resize [Field K] (c : camera K) (W H : Int) : camera K :=
  if W = 0 ∨ H = 0 then c
  else ProjSet { c with FrameW := W, FrameH := H }

/-- Source: `camera::Set`.  `MatrView = View(Loc1, At1, Up1)`; `Dir`, `Up`, `Right` are read
back from the columns of `MatrView` (`Dir` negated); `Loc = Loc1; At = At1;` and
`MatrVP = MatrView * MatrProj`. -/
def Set [Field K] [DecidableEq K] (sqrt : K → K) (c : camera K) (Loc1 At1 Up1 : vec3 K) :
    camera K :=
  let MatrView := matr.View sqrt Loc1 At1 Up1
  { c with
    MatrView := MatrView
    Dir := ⟨-MatrView.A02, -MatrView.A12, -MatrView.A22⟩
    Up := ⟨MatrView.A01, MatrView.A11, MatrView.A21⟩
    Right := ⟨MatrView.A00, MatrView.A10, MatrView.A20⟩
    Loc := Loc1
    At := At1
    MatrVP := MatrView.mul c.MatrProj }

/-- Source: the default constructor `camera( void )`: `Loc(200), At(0), FrameW(1432),
FrameH(720), ProjDist(0.1), Up(0, 1, 0), Hp(0.1), Wp(0.1), FarClip(10000), ProjSize(0.1)`, then
`Dir = (At - Loc).Normalizing(); Right = (Dir % Up).Normalizing();`.  The three matrices are
not mentioned and are default-constructed.  The literal `0.1` is read as one tenth. -/
def ctor [Field K] [DecidableEq K] (sqrt : K → K) : camera K :=
  let Loc : vec3 K := ⟨200, 200, 200⟩
  let At : vec3 K := ⟨0, 0, 0⟩
  let Up : vec3 K := ⟨0, 1, 0⟩
  let Dir := (At.sub Loc).Normalizing sqrt
  let Right := (Dir.cross Up).Normalizing sqrt
  { FrameW := 1432
    FrameH := 720
    Loc := Loc
    Dir := Dir
    Right := Right
    Up := Up
    At := At
    FarClip := 10000
    Wp := 1 / 10
    Hp := 1 / 10
    ProjDist := 1 / 10
    ProjSize := 1 / 10
    MatrView := matr.ctor
    MatrProj := matr.ctor
    MatrVP := matr.ctor }

/-- A concrete camera at which the theorems are instantiated: the frame size and the
projection data of the default constructor, an axis-aligned basis and identity matrices. -/
def sample (K : Type) [Field K] : camera K :=
  { FrameW := 1432
    FrameH := 720
    Loc := ⟨200, 200, 200⟩
    Dir := ⟨0, 0, -1⟩
    Right := ⟨1, 0, 0⟩
    Up := ⟨0, 1, 0⟩
    At := ⟨0, 0, 0⟩
    FarClip := 10000
    Wp := 1 / 10
    Hp := 1 / 10
    ProjDist := 1 / 10
    ProjSize := 1 / 10
    MatrView := matr.Identity
    MatrProj := matr.Identity
    MatrVP := matr.Identity }

end camera

/-! ## Arithmetic of the scalar type

`View`, `Normalize`, the determinant and `Inverse` take the operations of the scalar type as
they come.  Instantiated with a field they are the formulas of the code in exact arithmetic.
The type `num K rnd` instantiates them with an arithmetic in which an operation can have no
value and in which the result of every operation is rounded by `rnd`: with `rnd = some`
this is exact arithmetic in which a division by zero is visible in the result, with
`rnd = binary64.round` it is the arithmetic of `double`. -/

/-- A scalar of the arithmetic with rounding `rnd`: a value of `K`, or no value (`none`). -/
@[ext]
structure num (K : Type) (rnd : K → Option K) where
  val : Option K
deriving DecidableEq

namespace num

variable {K : Type} {rnd : K → Option K}

/-- A number of `K` as a scalar of the arithmetic. -/
def of (x : K) : num K rnd := ⟨some x⟩

/-- A function of one argument in the arithmetic: the rounded result, and no value for an
operand without value. -/
def op1 (f : K → K) (a : num K rnd) : num K rnd := ⟨a.val.bind fun x => rnd (f x)⟩

/-- An operation of two arguments in the arithmetic: the rounded result, and no value where
an operand has none. -/
def op2 (f : K → K → K) (a b : num K rnd) : num K rnd :=
  ⟨a.val.bind fun x => b.val.bind fun y => rnd (f x y)⟩

/-- Division in the arithmetic: no value where the divisor is zero, the rounded quotient
otherwise. -/
def div [Zero K] [Div K] [DecidableEq K] (a b : num K rnd) : num K rnd :=
  ⟨a.val.bind fun x => b.val.bind fun y => if y = 0 then none else rnd (x / y)⟩

/-- The literal `0`. -/
@[instance, reducible]
def instZero [Zero K] : Zero (num K rnd) := ⟨of 0⟩

/-- The literal `1`. -/
@[instance, reducible]
def instOne [One K] : One (num K rnd) := ⟨of 1⟩

/-- The operator `+` of the scalar type. -/
@[instance, reducible]
def instAdd [Add K] : Add (num K rnd) := ⟨op2 fun x y => x + y⟩

/-- The binary operator `-` of the scalar type. -/
@[instance, reducible]
def instSub [Sub K] : Sub (num K rnd) := ⟨op2 fun x y => x - y⟩

/-- The operator `*` of the scalar type. -/
@[instance, reducible]
def instMul [Mul K] : Mul (num K rnd) := ⟨op2 fun x y => x * y⟩

/-- The unary operator `-` of the scalar type. -/
@[instance, reducible]
def instNeg [Neg K] : Neg (num K rnd) := ⟨op1 fun x => -x⟩

/-- The operator `/` of the scalar type. -/
@[instance, reducible]
def instDiv [Zero K] [Div K] [DecidableEq K] : Div (num K rnd) := ⟨div⟩

end num

namespace binary64

/-- The number of binary digits of `n` less one, for `n` not zero; `k` bounds the number of
halvings. -/
def log2Aux : ℕ → ℕ → ℕ
  | 0, _ => 0
  | k + 1, n => if n < 2 then 0 else log2Aux k (n / 2) + 1

/-- The integer part of the binary logarithm of a natural number that is not zero. -/
def log2 (n : ℕ) : ℕ := log2Aux n n

/-- The power `2 ^ e` for an integer exponent. -/
def pow2 (e : ℤ) : ℚ :=
  if 0 ≤ e then ((2 ^ e.toNat : ℕ) : ℚ) else 1 / ((2 ^ (-e).toNat : ℕ) : ℚ)

/-- The exponent of a rational number `x` that is not zero: the integer `e` with
`2 ^ e ≤ |x| < 2 ^ (e + 1)`.  The difference of the logarithms of numerator and denominator is
`e` or `e + 1`. -/
def ilog2 (x : ℚ) : ℤ :=
  let e : ℤ := (log2 x.num.natAbs : ℤ) - (log2 x.den : ℤ)
  if pow2 e ≤ |x| then e else e - 1

/-- The nearest integer, a tie going to the even one. -/
def roundEven (x : ℚ) : ℤ :=
  let f := x.floor
  let d := x - f
  if d < 1 / 2 then f
  else if 1 / 2 < d then f + 1
  else if f % 2 = 0 then f else f + 1

/-- Rounding of binary64, to nearest with ties to even: the multiple of `2 ^ (e - 52)`
nearest to `x`, where `e` is the exponent of `x`, so that the significand has 53 binary
digits.  No value for a result below the normal range (`e < -1022`: subnormal numbers and
underflow) and for a result of magnitude `2 ^ 1024` or more (overflow). -/
def round (x : ℚ) : Option ℚ :=
  if x = 0 then some 0
  else
    let e := ilog2 x
    if e < -1022 then none
    else
      let y := (roundEven (x / pow2 (e - 52)) : ℚ) * pow2 (e - 52)
      if pow2 1024 ≤ |y| then none else some y

/-- Newton iteration for the integer square root of `n`, from a start `g` above it; `k`
bounds the number of steps. -/
def isqrtAux : ℕ → ℕ → ℕ → ℕ
  | 0, _, g => g
  | k + 1, n, g => if (g + n / g) / 2 < g then isqrtAux k n ((g + n / g) / 2) else g

/-- The integer square root: the largest `r` with `r * r ≤ n`. -/
def isqrt (n : ℕ) : ℕ :=
  if n = 0 then 0 else isqrtAux (log2 n + 2) n (2 ^ (log2 n / 2 + 1))

end binary64

/-- The scalar type `double` (`DBL` in `mth_def.h`): rational numbers with the rounding of
binary64 after every operation. -/
@[reducible]
def DBL : Type := num ℚ binary64.round

/-- The function `sqrt` of `<cmath>` for `double`, correctly rounded; no value for a negative
argument.  For `x > 0` the argument is scaled by a power `4 ^ s` to at least `2 ^ 126`, and `r`
is the integer square root of the integer part, of 64 binary digits or more: where `r * r`
is the scaled argument the root is `r / 2 ^ s`; otherwise the root lies strictly between
`r / 2 ^ s` and `(r + 1) / 2 ^ s`, an interval without a number of 54 binary digits, so
that it rounds as the midpoint of the interval does. -/
def binary64.sqrt (a : DBL) : DBL :=
  ⟨a.val.bind fun x =>
    if x < 0 then none
    else if x = 0 then some 0
    else
      let s : ℤ := 64 - ilog2 x / 2
      let r := isqrt (x * pow2 (2 * s)).floor.toNat
      if (r * r : ℚ) = x * pow2 (2 * s) then round ((r : ℚ) * pow2 (-s))
      else round (((2 * r + 1 : ℕ) : ℚ) * pow2 (-s - 1))⟩

/-! ## Theorems -/

section MatrInverse

variable {K : Type}

/-- The branch of `matr::Inverse` taken when the determinant is not zero. -/
lemma matr_Inverse_of_det_ne_zero [Ring K] [Div K] [DecidableEq K] (M : matr K)
    (h : M.det ≠ 0) :
    M.Inverse =
    { A00 := matr.Determ3x3 M.A11 M.A12 M.A13 M.A21 M.A22 M.A23 M.A31 M.A32 M.A33 / M.det
      A10 := -matr.Determ3x3 M.A10 M.A12 M.A13 M.A20 M.A22 M.A23 M.A30 M.A32 M.A33 / M.det
      A20 := matr.Determ3x3 M.A10 M.A11 M.A13 M.A20 M.A21 M.A23 M.A30 M.A31 M.A33 / M.det
      A30 := -matr.Determ3x3 M.A10 M.A11 M.A12 M.A20 M.A21 M.A22 M.A30 M.A31 M.A32 / M.det
      A01 := -matr.Determ3x3 M.A01 M.A02 M.A03 M.A21 M.A22 M.A23 M.A31 M.A32 M.A33 / M.det
      A11 := matr.Determ3x3 M.A00 M.A02 M.A03 M.A20 M.A22 M.A23 M.A30 M.A32 M.A33 / M.det
      A21 := -matr.Determ3x3 M.A00 M.A01 M.A03 M.A20 M.A21 M.A23 M.A30 M.A31 M.A33 / M.det
      A31 := matr.Determ3x3 M.A00 M.A01 M.A02 M.A20 M.A21 M.A22 M.A30 M.A31 M.A32 / M.det
      A02 := matr.Determ3x3 M.A01 M.A02 M.A03 M.A11 M.A12 M.A13 M.A31 M.A32 M.A33 / M.det
      A12 := -matr.Determ3x3 M.A00 M.A02 M.A03 M.A10 M.A12 M.A13 M.A30 M.A32 M.A33 / M.det
      A22 := matr.Determ3x3 M.A00 M.A01 M.A03 M.A10 M.A11 M.A13 M.A30 M.A31 M.A33 / M.det
      A32 := -matr.Determ3x3 M.A00 M.A01 M.A02 M.A10 M.A11 M.A12 M.A30 M.A31 M.A32 / M.det
      A03 := -matr.Determ3x3 M.A01 M.A02 M.A03 M.A11 M.A12 M.A13 M.A21 M.A22 M.A23 / M.det
      A13 := matr.Determ3x3 M.A00 M.A02 M.A03 M.A10 M.A12 M.A13 M.A20 M.A22 M.A23 / M.det
      A23 := -matr.Determ3x3 M.A00 M.A01 M.A03 M.A10 M.A11 M.A13 M.A20 M.A21 M.A23 / M.det
      A33 := matr.Determ3x3 M.A00 M.A01 M.A02 M.A10 M.A11 M.A12 M.A20 M.A21 M.A22 / M.det } := by
  unfold matr.Inverse
  simp only [if_neg h]

/-- Four products with quotients over one denominator, as one quotient. -/
lemma sum_mul_div_same [Field K] (a b c d x y z w δ : K) :
    a * (x / δ) + b * (y / δ) + c * (z / δ) + d * (w / δ)
      = (a * x + b * y + c * z + d * w) / δ := by
  ring

/-- C1. Over a field, a matrix with non-zero determinant times its `Inverse()` is
`Identity()`, in all sixteen entries. -/
theorem matr_mul_Inverse_eq_Identity [Field K] [DecidableEq K] (M : matr K)
    (h : M.det ≠ 0) : M.mul M.Inverse = matr.Identity := by
  rw [matr_Inverse_of_det_ne_zero M h]
  ext <;> simp only [matr.mul, matr.Identity] <;>
    rw [sum_mul_div_same, div_eq_iff h] <;>
    simp only [matr.det, matr.Determ4x4, matr.Determ3x3] <;> ring

/-- C1, at a concrete matrix: the uniform scale by two followed by a translation. -/
theorem matr_mul_Inverse_eq_Identity_witness :
    matr.det (⟨2, 0, 0, 0, 0, 2, 0, 0, 0, 0, 2, 0, 1, 2, 3, 1⟩ : matr ℚ) ≠ 0 ∧
    matr.mul (⟨2, 0, 0, 0, 0, 2, 0, 0, 0, 0, 2, 0, 1, 2, 3, 1⟩ : matr ℚ)
      (matr.Inverse ⟨2, 0, 0, 0, 0, 2, 0, 0, 0, 0, 2, 0, 1, 2, 3, 1⟩) = matr.Identity :=
  ⟨by norm_num [matr.det, matr.Determ4x4, matr.Determ3x3],
   matr_mul_Inverse_eq_Identity _ (by norm_num [matr.det, matr.Determ4x4, matr.Determ3x3])⟩

end MatrInverse

section TensorInverse

variable {K : Type}

/-- C2. `tensor::Inverse` is not the inverse at the shear `(1,1,0; 0,1,0; 0,0,1)`: its
determinant is one, the entry `[0][1]` of the result is `A[0][2]*A[2][1] - A[0][1]*A[2][1] = 0`
where the adjugate has `A[0][2]*A[2][1] - A[0][1]*A[2][2] = -1`, so `Inverse()` returns the
identity and `T * T.Inverse()` is `T` itself, not `Identity()`. -/
theorem tensor_mul_Inverse_ne_Identity :
    tensor.det (⟨1, 1, 0, 0, 1, 0, 0, 0, 1⟩ : tensor ℚ) = 1 ∧
    tensor.Inverse (⟨1, 1, 0, 0, 1, 0, 0, 0, 1⟩ : tensor ℚ) = tensor.Identity ∧
    tensor.mul (⟨1, 1, 0, 0, 1, 0, 0, 0, 1⟩ : tensor ℚ)
      (tensor.Inverse ⟨1, 1, 0, 0, 1, 0, 0, 0, 1⟩) = ⟨1, 1, 0, 0, 1, 0, 0, 0, 1⟩ ∧
    tensor.mul (⟨1, 1, 0, 0, 1, 0, 0, 0, 1⟩ : tensor ℚ)
      (tensor.Inverse ⟨1, 1, 0, 0, 1, 0, 0, 0, 1⟩) ≠ tensor.Identity := by
  have hd : tensor.det (⟨1, 1, 0, 0, 1, 0, 0, 0, 1⟩ : tensor ℚ) = 1 := by
    norm_num [tensor.det, tensor.Determ3x3]
  have hi : tensor.Inverse (⟨1, 1, 0, 0, 1, 0, 0, 0, 1⟩ : tensor ℚ) = tensor.Identity := by
    unfold tensor.Inverse
    simp only [hd]
    norm_num [tensor.Identity]
  refine ⟨hd, hi, ?_, ?_⟩
  · rw [hi]; norm_num [tensor.mul, tensor.Identity]
  · rw [hi]; norm_num [tensor.mul, tensor.Identity]

/-- C3. When the determinant is zero, `matr::Inverse` and `tensor::Inverse` return exactly
`Identity()`.  The scalars are any ring with any division operation `/`: the result of
that branch does not depend on what division does. -/
theorem Inverse_eq_Identity_of_det_eq_zero [Ring K] [Div K] [DecidableEq K]
    (M : matr K) (T : tensor K) :
    (M.det = 0 → M.Inverse = matr.Identity) ∧ (T.det = 0 → T.Inverse = tensor.Identity) := by
  constructor
  · intro h
    unfold matr.Inverse
    simp only [h, if_true]
  · intro h
    unfold tensor.Inverse
    simp only [h, if_true]

/-- C3, at a concrete singular matrix (rows 0 and 1 equal) and a concrete singular tensor
(row 2 is row 0 plus row 1). -/
theorem Inverse_eq_Identity_of_det_eq_zero_witness :
    matr.det (⟨1, 2, 3, 4, 1, 2, 3, 4, 0, 0, 1, 0, 5, 6, 7, 1⟩ : matr ℚ) = 0 ∧
    tensor.det (⟨1, 2, 3, 4, 5, 6, 5, 7, 9⟩ : tensor ℚ) = 0 ∧
    matr.Inverse (⟨1, 2, 3, 4, 1, 2, 3, 4, 0, 0, 1, 0, 5, 6, 7, 1⟩ : matr ℚ) = matr.Identity ∧
    tensor.Inverse (⟨1, 2, 3, 4, 5, 6, 5, 7, 9⟩ : tensor ℚ) = tensor.Identity :=
  ⟨by norm_num [matr.det, matr.Determ4x4, matr.Determ3x3],
   by norm_num [tensor.det, tensor.Determ3x3],
   (Inverse_eq_Identity_of_det_eq_zero _ (⟨1, 2, 3, 4, 5, 6, 5, 7, 9⟩ : tensor ℚ)).1
     (by norm_num [matr.det, matr.Determ4x4, matr.Determ3x3]),
   (Inverse_eq_Identity_of_det_eq_zero
     (⟨1, 2, 3, 4, 1, 2, 3, 4, 0, 0, 1, 0, 5, 6, 7, 1⟩ : matr ℚ) _).2
     (by norm_num [tensor.det, tensor.Determ3x3])⟩

end TensorInverse

section Star

variable {K : Type}

/-- C4 as stated fails: `Star((0,0,1)) * (1,0,0)` is `(0,-1,0)`, while the cross product
`(0,0,1) % (1,0,0)` is `(0,1,0)`. -/
theorem Star_mulVec_ne_cross :
    tensor.mulVec (tensor.Star (⟨0, 0, 1⟩ : vec3 ℚ)) ⟨1, 0, 0⟩ = ⟨0, -1, 0⟩ ∧
    vec3.cross (⟨0, 0, 1⟩ : vec3 ℚ) ⟨1, 0, 0⟩ = ⟨0, 1, 0⟩ ∧
    tensor.mulVec (tensor.Star (⟨0, 0, 1⟩ : vec3 ℚ)) ⟨1, 0, 0⟩
      ≠ vec3.cross (⟨0, 0, 1⟩ : vec3 ℚ) ⟨1, 0, 0⟩ := by
  refine ⟨?_, ?_, ?_⟩ <;> norm_num [tensor.mulVec, tensor.Star, vec3.cross]

/-- C4, amended. `Star(w) * v` is the cross product with the operands exchanged, `v % w`,
which is the negated `w % v`. -/
theorem Star_mulVec_eq_cross_swap [CommRing K] (w v : vec3 K) :
    (tensor.Star w).mulVec v = v.cross w ∧ (tensor.Star w).mulVec v = (w.cross v).neg := by
  constructor <;> ext <;> simp only [tensor.mulVec, tensor.Star, vec3.cross, vec3.neg] <;> ring

end Star

section QuatAlgebra

variable {K : Type}

/-- C5. For unit quaternions the rotation matrix of the Hamilton product `q1 * q2` is the
matrix of `q2` times the matrix of `q1`. -/
theorem RotateMatr_mul [CommRing K] (q1 q2 : quat K)
    (h1 : q1.normSq = 1) (h2 : q2.normSq = 1) :
    (q1.mul q2).RotateMatr = q2.RotateMatr.mul q1.RotateMatr := by
  simp only [quat.normSq] at h1 h2
  ext
  · simp only [quat.RotateMatr, quat.mul, matr.mul]
    linear_combination (-2 * q2.Y * q2.Y - 2 * q2.Z * q2.Z) * h1
      + (-2 * q1.Y * q1.Y - 2 * q1.Z * q1.Z) * h2
  · simp only [quat.RotateMatr, quat.mul, matr.mul]
    linear_combination (2 * q2.X * q2.Y + 2 * q2.W * q2.Z) * h1
      + (2 * q1.X * q1.Y + 2 * q1.W * q1.Z) * h2
  · simp only [quat.RotateMatr, quat.mul, matr.mul]
    linear_combination (2 * q2.X * q2.Z - 2 * q2.W * q2.Y) * h1
      + (2 * q1.X * q1.Z - 2 * q1.W * q1.Y) * h2
  · simp only [quat.RotateMatr, quat.mul, matr.mul]; ring
  · simp only [quat.RotateMatr, quat.mul, matr.mul]
    linear_combination (2 * q2.X * q2.Y - 2 * q2.W * q2.Z) * h1
      + (2 * q1.X * q1.Y - 2 * q1.W * q1.Z) * h2
  · simp only [quat.RotateMatr, quat.mul, matr.mul]
    linear_combination (-2 * q2.X * q2.X - 2 * q2.Z * q2.Z) * h1
      + (-2 * q1.X * q1.X - 2 * q1.Z * q1.Z) * h2
  · simp only [quat.RotateMatr, quat.mul, matr.mul]
    linear_combination (2 * q2.Y * q2.Z + 2 * q2.W * q2.X) * h1
      + (2 * q1.Y * q1.Z + 2 * q1.W * q1.X) * h2
  · simp only [quat.RotateMatr, quat.mul, matr.mul]; ring
  · simp only [quat.RotateMatr, quat.mul, matr.mul]
    linear_combination (2 * q2.X * q2.Z + 2 * q2.W * q2.Y) * h1
      + (2 * q1.X * q1.Z + 2 * q1.W * q1.Y) * h2
  · simp only [quat.RotateMatr, quat.mul, matr.mul]
    linear_combination (2 * q2.Y * q2.Z - 2 * q2.W * q2.X) * h1
      + (2 * q1.Y * q1.Z - 2 * q1.W * q1.X) * h2
  · simp only [quat.RotateMatr, quat.mul, matr.mul]
    linear_combination (-2 * q2.X * q2.X - 2 * q2.Y * q2.Y) * h1
      + (-2 * q1.X * q1.X - 2 * q1.Y * q1.Y) * h2
  · simp only [quat.RotateMatr, quat.mul, matr.mul]; ring
  · simp only [quat.RotateMatr, quat.mul, matr.mul]; ring
  · simp only [quat.RotateMatr, quat.mul, matr.mul]; ring
  · simp only [quat.RotateMatr, quat.mul, matr.mul]; ring
  · simp only [quat.RotateMatr, quat.mul, matr.mul]; ring

/-- C5, at two concrete unit quaternions: the half turn around `X` and the rational unit
quaternion `(3/5, 0, 0, 4/5)`. -/
theorem RotateMatr_mul_witness :
    quat.normSq (⟨1, 0, 0, 0⟩ : quat ℚ) = 1 ∧ quat.normSq (⟨0, 3 / 5, 0, 4 / 5⟩ : quat ℚ) = 1 ∧
    (quat.mul (⟨1, 0, 0, 0⟩ : quat ℚ) ⟨0, 3 / 5, 0, 4 / 5⟩).RotateMatr
      = (quat.RotateMatr (⟨0, 3 / 5, 0, 4 / 5⟩ : quat ℚ)).mul
          (quat.RotateMatr (⟨1, 0, 0, 0⟩ : quat ℚ)) :=
  ⟨by norm_num [quat.normSq], by norm_num [quat.normSq],
   RotateMatr_mul _ _ (by norm_num [quat.normSq]) (by norm_num [quat.normSq])⟩

/-- C8. Quaternion division is the product with the conjugate over the squared norm, and it
undoes the multiplication on the right: `(q / p) * p = q` when `!p` is not zero. -/
theorem quat_div_mul_cancel [Field K] (q p : quat K) (h : p.normSq ≠ 0) :
    q.div p = q.mul ((quat.ofScalarVec p.W p.Vec.neg).divScalar p.normSq) ∧
    (q.div p).mul p = q := by
  refine ⟨rfl, ?_⟩
  have hn : p.normSq * p.normSq⁻¹ = 1 := mul_inv_cancel₀ h
  have hN : p.W * p.W + p.X * p.X + p.Y * p.Y + p.Z * p.Z = p.normSq := rfl
  ext
  · simp only [quat.div, quat.mul, quat.divScalar, quat.ofScalarVec, quat.Vec, vec3.neg,
      div_eq_mul_inv]
    linear_combination q.X * hn + q.X * p.normSq⁻¹ * hN
  · simp only [quat.div, quat.mul, quat.divScalar, quat.ofScalarVec, quat.Vec, vec3.neg,
      div_eq_mul_inv]
    linear_combination q.Y * hn + q.Y * p.normSq⁻¹ * hN
  · simp only [quat.div, quat.mul, quat.divScalar, quat.ofScalarVec, quat.Vec, vec3.neg,
      div_eq_mul_inv]
    linear_combination q.Z * hn + q.Z * p.normSq⁻¹ * hN
  · simp only [quat.div, quat.mul, quat.divScalar, quat.ofScalarVec, quat.Vec, vec3.neg,
      div_eq_mul_inv]
    linear_combination q.W * hn + q.W * p.normSq⁻¹ * hN

/-- C8, at concrete quaternions. -/
theorem quat_div_mul_cancel_witness :
    quat.normSq (⟨1, 2, 3, 4⟩ : quat ℚ) ≠ 0 ∧
    (quat.div (⟨5, 6, 7, 8⟩ : quat ℚ) ⟨1, 2, 3, 4⟩).mul ⟨1, 2, 3, 4⟩ = ⟨5, 6, 7, 8⟩ :=
  ⟨by norm_num [quat.normSq],
   (quat_div_mul_cancel ⟨5, 6, 7, 8⟩ ⟨1, 2, 3, 4⟩ (by norm_num [quat.normSq])).2⟩

end QuatAlgebra

section QuatSLerp

/-- Inside the open interval `(-1, 1)` the sine of the arc cosine is not zero. -/
lemma sin_arccos_ne_zero (c : ℝ) (h0 : -1 < c) (h1 : c < 1) :
    Real.sin (Real.arccos c) ≠ 0 := by
  rw [Real.sin_arccos]
  have hpos : 0 < 1 - c ^ 2 := by nlinarith
  exact (Real.sqrt_pos.mpr hpos).ne'

/-- Two different unit quaternions have a dot product below one. -/
lemma quat_dot_lt_one (q1 q2 : quat ℝ) (h1 : q1.normSq = 1) (h2 : q2.normSq = 1)
    (hne : q2 ≠ q1) :
    q1.W * q2.W + q1.X * q2.X + q1.Y * q2.Y + q1.Z * q2.Z < 1 := by
  by_contra hge
  push_neg at hge
  simp only [quat.normSq] at h1 h2
  have hsum : (q2.X - q1.X) ^ 2 + (q2.Y - q1.Y) ^ 2 + (q2.Z - q1.Z) ^ 2 + (q2.W - q1.W) ^ 2
      = 2 - 2 * (q1.W * q2.W + q1.X * q2.X + q1.Y * q2.Y + q1.Z * q2.Z) := by
    linear_combination h1 + h2
  have pX := sq_nonneg (q2.X - q1.X)
  have pY := sq_nonneg (q2.Y - q1.Y)
  have pZ := sq_nonneg (q2.Z - q1.Z)
  have pW := sq_nonneg (q2.W - q1.W)
  have hX : (q2.X - q1.X) ^ 2 = 0 := le_antisymm (by linarith) pX
  have hY : (q2.Y - q1.Y) ^ 2 = 0 := le_antisymm (by linarith) pY
  have hZ : (q2.Z - q1.Z) ^ 2 = 0 := le_antisymm (by linarith) pZ
  have hW : (q2.W - q1.W) ^ 2 = 0 := le_antisymm (by linarith) pW
  apply hne
  ext
  · exact sub_eq_zero.mp (pow_eq_zero_iff (by norm_num) |>.mp hX)
  · exact sub_eq_zero.mp (pow_eq_zero_iff (by norm_num) |>.mp hY)
  · exact sub_eq_zero.mp (pow_eq_zero_iff (by norm_num) |>.mp hZ)
  · exact sub_eq_zero.mp (pow_eq_zero_iff (by norm_num) |>.mp hW)

/-- Two unit quaternions that are not opposite have a dot product above minus one. -/
lemma quat_neg_one_lt_dot (q1 q2 : quat ℝ) (h1 : q1.normSq = 1) (h2 : q2.normSq = 1)
    (hne : q2 ≠ q1.neg) :
    -1 < q1.W * q2.W + q1.X * q2.X + q1.Y * q2.Y + q1.Z * q2.Z := by
  have hn : q1.neg.normSq = 1 := by
    simp only [quat.normSq, quat.neg] at h1 ⊢
    linear_combination h1
  have h := quat_dot_lt_one q1.neg q2 hn h2 hne
  simp only [quat.neg] at h
  linarith

/-- Multiplying by a non-zero number and by its reciprocal changes nothing. -/
lemma mul_mul_one_div_cancel (x s : ℝ) (h : s ≠ 0) : x * s * (1 / s) = x := by
  field_simp

/-- The value of `SLerp` at `T = 1` when `sin(alpha)` is not zero: the second operand,
negated if the dot product is negative.  No norm is assumed. -/
lemma SLerp_one_of_sin_ne_zero (q1 q2 : quat ℝ)
    (hs : Real.sin (Real.arccos
      (if q1.W * q2.W + q1.X * q2.X + q1.Y * q2.Y + q1.Z * q2.Z < 0
        then -(q1.W * q2.W + q1.X * q2.X + q1.Y * q2.Y + q1.Z * q2.Z)
        else q1.W * q2.W + q1.X * q2.X + q1.Y * q2.Y + q1.Z * q2.Z)) ≠ 0) :
    quat.SLerp Real.sin Real.arccos 1 q1 q2
      = some (if q1.W * q2.W + q1.X * q2.X + q1.Y * q2.Y + q1.Z * q2.Z < 0
          then q2.neg else q2) := by
  simp only [quat.SLerp, if_neg hs, sub_self, zero_mul, one_mul, Real.sin_zero, mul_zero,
    zero_add, Option.some.injEq]
  ext <;> exact mul_mul_one_div_cancel _ _ hs

/-- The value of `SLerp` at `T = 0` when `sin(alpha)` is not zero: the first operand.
No norm is assumed. -/
lemma SLerp_zero_of_sin_ne_zero (q1 q2 : quat ℝ)
    (hs : Real.sin (Real.arccos
      (if q1.W * q2.W + q1.X * q2.X + q1.Y * q2.Y + q1.Z * q2.Z < 0
        then -(q1.W * q2.W + q1.X * q2.X + q1.Y * q2.Y + q1.Z * q2.Z)
        else q1.W * q2.W + q1.X * q2.X + q1.Y * q2.Y + q1.Z * q2.Z)) ≠ 0) :
    quat.SLerp Real.sin Real.arccos 0 q1 q2 = some q1 := by
  simp only [quat.SLerp, if_neg hs, sub_zero, zero_mul, one_mul, Real.sin_zero, mul_zero,
    add_zero, Option.some.injEq]
  ext <;> exact mul_mul_one_div_cancel _ _ hs

/-- For unit quaternions that are neither equal nor opposite, `sin(alpha)` is not zero. -/
lemma SLerp_sin_alpha_ne_zero (q1 q2 : quat ℝ) (h1 : q1.normSq = 1) (h2 : q2.normSq = 1)
    (hne : q2 ≠ q1) (hopp : q2 ≠ q1.neg) :
    Real.sin (Real.arccos
      (if q1.W * q2.W + q1.X * q2.X + q1.Y * q2.Y + q1.Z * q2.Z < 0
        then -(q1.W * q2.W + q1.X * q2.X + q1.Y * q2.Y + q1.Z * q2.Z)
        else q1.W * q2.W + q1.X * q2.X + q1.Y * q2.Y + q1.Z * q2.Z)) ≠ 0 := by
  have hlt := quat_dot_lt_one q1 q2 h1 h2 hne
  have hgt := quat_neg_one_lt_dot q1 q2 h1 h2 hopp
  split_ifs with hd
  · exact sin_arccos_ne_zero _ (by linarith) (by linarith)
  · exact sin_arccos_ne_zero _ hgt hlt

/-- C9 as stated fails.  For the unit quaternions `q1 = (1,0,0,0)` and
`q2 = (-3/5, 4/5, 0, 0)` the dot product is `-3/5`, the code negates `b`, and
`SLerp(1, q1, q2)` is `-q2 = (3/5, -4/5, 0, 0)`, not `q2`.  For `q1 = q2 = (0,0,0,1)`,
`alpha` is `acos(1) = 0` and `1 / sin(alpha)` is a division by zero: no value. -/
theorem SLerp_one_ne_second :
    quat.normSq (⟨1, 0, 0, 0⟩ : quat ℝ) = 1 ∧
    quat.normSq (⟨-3 / 5, 4 / 5, 0, 0⟩ : quat ℝ) = 1 ∧
    quat.SLerp Real.sin Real.arccos 1 ⟨1, 0, 0, 0⟩ ⟨-3 / 5, 4 / 5, 0, 0⟩
      = some ⟨3 / 5, -4 / 5, 0, 0⟩ ∧
    quat.SLerp Real.sin Real.arccos 1 ⟨1, 0, 0, 0⟩ ⟨-3 / 5, 4 / 5, 0, 0⟩
      ≠ some ⟨-3 / 5, 4 / 5, 0, 0⟩ ∧
    quat.SLerp Real.sin Real.arccos 1 ⟨0, 0, 0, 1⟩ ⟨0, 0, 0, 1⟩ = none := by
  have h1 : quat.normSq (⟨1, 0, 0, 0⟩ : quat ℝ) = 1 := by norm_num [quat.normSq]
  have h2 : quat.normSq (⟨-3 / 5, 4 / 5, 0, 0⟩ : quat ℝ) = 1 := by norm_num [quat.normSq]
  have hne : (⟨-3 / 5, 4 / 5, 0, 0⟩ : quat ℝ) ≠ ⟨1, 0, 0, 0⟩ := by
    intro h
    have hY := congrArg quat.Y h
    norm_num at hY
  have hopp : (⟨-3 / 5, 4 / 5, 0, 0⟩ : quat ℝ) ≠ quat.neg ⟨1, 0, 0, 0⟩ := by
    intro h
    have hY := congrArg quat.Y h
    norm_num [quat.neg] at hY
  have hv : quat.SLerp Real.sin Real.arccos 1 ⟨1, 0, 0, 0⟩ ⟨-3 / 5, 4 / 5, 0, 0⟩
      = some ⟨3 / 5, -4 / 5, 0, 0⟩ := by
    rw [SLerp_one_of_sin_ne_zero _ _ (SLerp_sin_alpha_ne_zero _ _ h1 h2 hne hopp)]
    norm_num [quat.neg]
  refine ⟨h1, h2, hv, ?_, ?_⟩
  · rw [hv]
    intro h
    have hY := congrArg quat.Y (Option.some.inj h)
    norm_num at hY
  · norm_num [quat.SLerp, Real.arccos_one]

/-- C9, amended.  For unit quaternions `q1`, `q2` that are neither equal nor opposite,
`SLerp(1, q1, q2)` is `q2` when the dot product of `q1` and `q2` is not negative, and `-q2`
(the same rotation, reached along the shorter arc) when it is negative. -/
theorem SLerp_one_eq (q1 q2 : quat ℝ) (h1 : q1.normSq = 1) (h2 : q2.normSq = 1)
    (hne : q2 ≠ q1) (hopp : q2 ≠ q1.neg) :
    quat.SLerp Real.sin Real.arccos 1 q1 q2
      = some (if q1.W * q2.W + q1.X * q2.X + q1.Y * q2.Y + q1.Z * q2.Z < 0
          then q2.neg else q2) :=
  SLerp_one_of_sin_ne_zero q1 q2 (SLerp_sin_alpha_ne_zero q1 q2 h1 h2 hne hopp)

/-- C9 amended, at the quarter-turn pair `q1 = (0,0,0,1)`, `q2 = (0,0,1,0)`. -/
theorem SLerp_one_eq_witness :
    quat.normSq (⟨0, 0, 0, 1⟩ : quat ℝ) = 1 ∧ quat.normSq (⟨0, 0, 1, 0⟩ : quat ℝ) = 1 ∧
    (⟨0, 0, 1, 0⟩ : quat ℝ) ≠ ⟨0, 0, 0, 1⟩ ∧
    (⟨0, 0, 1, 0⟩ : quat ℝ) ≠ quat.neg ⟨0, 0, 0, 1⟩ ∧
    quat.SLerp Real.sin Real.arccos 1 ⟨0, 0, 0, 1⟩ ⟨0, 0, 1, 0⟩
      = some ⟨0, 0, 1, 0⟩ :=
  ⟨by norm_num [quat.normSq], by norm_num [quat.normSq],
   fun h => by have hZ := congrArg quat.Z h; norm_num at hZ,
   fun h => by have hZ := congrArg quat.Z h; norm_num [quat.neg] at hZ,
   (SLerp_one_eq ⟨0, 0, 0, 1⟩ ⟨0, 0, 1, 0⟩ (by norm_num [quat.normSq])
     (by norm_num [quat.normSq])
     (fun h => by have hZ := congrArg quat.Z h; norm_num at hZ)
     (fun h => by have hZ := congrArg quat.Z h; norm_num [quat.neg] at hZ)).trans
     (by norm_num)⟩

/-- C10 as stated fails.  For the unit quaternion `q1 = q2 = (0,0,0,1)` the dot product is
one, `alpha = acos(1) = 0`, and `1 / sin(alpha)` is a division by zero: `SLerp(0, q1, q2)`
has no value, so it is not `q1`. -/
theorem SLerp_zero_ne_first :
    quat.normSq (⟨0, 0, 0, 1⟩ : quat ℝ) = 1 ∧
    quat.SLerp Real.sin Real.arccos 0 ⟨0, 0, 0, 1⟩ ⟨0, 0, 0, 1⟩ = none ∧
    quat.SLerp Real.sin Real.arccos 0 ⟨0, 0, 0, 1⟩ ⟨0, 0, 0, 1⟩ ≠ some ⟨0, 0, 0, 1⟩ := by
  have hv : quat.SLerp Real.sin Real.arccos 0 ⟨0, 0, 0, 1⟩ ⟨0, 0, 0, 1⟩ = none := by
    norm_num [quat.SLerp, Real.arccos_one]
  refine ⟨by norm_num [quat.normSq], hv, ?_⟩
  rw [hv]
  exact fun h => Option.noConfusion h

/-- C10, amended.  For unit quaternions `q1`, `q2` that are neither equal nor opposite,
`SLerp(0, q1, q2)` is `q1`, in all four components. -/
theorem SLerp_zero_eq (q1 q2 : quat ℝ) (h1 : q1.normSq = 1) (h2 : q2.normSq = 1)
    (hne : q2 ≠ q1) (hopp : q2 ≠ q1.neg) :
    quat.SLerp Real.sin Real.arccos 0 q1 q2 = some q1 :=
  SLerp_zero_of_sin_ne_zero q1 q2 (SLerp_sin_alpha_ne_zero q1 q2 h1 h2 hne hopp)

/-- C10 amended, at `q1 = (1,0,0,0)` and `q2 = (-3/5, 4/5, 0, 0)`, whose dot product is
negative. -/
theorem SLerp_zero_eq_witness :
    quat.normSq (⟨1, 0, 0, 0⟩ : quat ℝ) = 1 ∧
    quat.normSq (⟨-3 / 5, 4 / 5, 0, 0⟩ : quat ℝ) = 1 ∧
    (⟨-3 / 5, 4 / 5, 0, 0⟩ : quat ℝ) ≠ ⟨1, 0, 0, 0⟩ ∧
    (⟨-3 / 5, 4 / 5, 0, 0⟩ : quat ℝ) ≠ quat.neg ⟨1, 0, 0, 0⟩ ∧
    quat.SLerp Real.sin Real.arccos 0 ⟨1, 0, 0, 0⟩ ⟨-3 / 5, 4 / 5, 0, 0⟩
      = some ⟨1, 0, 0, 0⟩ :=
  ⟨by norm_num [quat.normSq], by norm_num [quat.normSq],
   fun h => by have hY := congrArg quat.Y h; norm_num at hY,
   fun h => by have hY := congrArg quat.Y h; norm_num [quat.neg] at hY,
   SLerp_zero_eq ⟨1, 0, 0, 0⟩ ⟨-3 / 5, 4 / 5, 0, 0⟩ (by norm_num [quat.normSq])
     (by norm_num [quat.normSq])
     (fun h => by have hY := congrArg quat.Y h; norm_num at hY)
     (fun h => by have hY := congrArg quat.Y h; norm_num [quat.neg] at hY)⟩

/-- C11 as stated fails.  For the unit quaternion `q = (0,0,0,1)` the dot product of `q`
with itself is one, `alpha = acos(1) = 0`, and `1 / sin(alpha)` is a division by zero:
`SLerp(0.5, q, q)` has no value, so it is not `q`. -/
theorem SLerp_half_same_ne :
    quat.normSq (⟨0, 0, 0, 1⟩ : quat ℝ) = 1 ∧
    quat.SLerp Real.sin Real.arccos (1 / 2) ⟨0, 0, 0, 1⟩ ⟨0, 0, 0, 1⟩ = none ∧
    quat.SLerp Real.sin Real.arccos (1 / 2) ⟨0, 0, 0, 1⟩ ⟨0, 0, 0, 1⟩
      ≠ some ⟨0, 0, 0, 1⟩ := by
  have hv : quat.SLerp Real.sin Real.arccos (1 / 2) ⟨0, 0, 0, 1⟩ ⟨0, 0, 0, 1⟩ = none := by
    norm_num [quat.SLerp, Real.arccos_one]
  refine ⟨by norm_num [quat.normSq], hv, ?_⟩
  rw [hv]
  exact fun h => Option.noConfusion h

/-- C11, amended.  For every unit quaternion `q`, `SLerp(0.5, q, q)` has no value: the dot
product is the squared norm, one, so `alpha = acos(1) = 0` and the code divides by
`sin(0) = 0`. -/
theorem SLerp_half_same_eq_none (q : quat ℝ) (h : q.normSq = 1) :
    quat.SLerp Real.sin Real.arccos (1 / 2) q q = none := by
  have hd : q.W * q.W + q.X * q.X + q.Y * q.Y + q.Z * q.Z = 1 := h
  have h0 : ¬ ((1 : ℝ) < 0) := by norm_num
  simp only [quat.SLerp, hd, if_neg h0, Real.arccos_one, Real.sin_zero, if_true]

/-- C11 amended, at the unit quaternion `(3/5, 0, 4/5, 0)`. -/
theorem SLerp_half_same_eq_none_witness :
    quat.normSq (⟨3 / 5, 0, 4 / 5, 0⟩ : quat ℝ) = 1 ∧
    quat.SLerp Real.sin Real.arccos (1 / 2) ⟨3 / 5, 0, 4 / 5, 0⟩ ⟨3 / 5, 0, 4 / 5, 0⟩ = none :=
  ⟨by norm_num [quat.normSq],
   SLerp_half_same_eq_none ⟨3 / 5, 0, 4 / 5, 0⟩ (by norm_num [quat.normSq])⟩

end QuatSLerp

section ViewLayout

variable {K : Type}

/-- C13 as stated fails.  For `eye = (0,0,0)`, `target = (1,0,0)`, `up = (0,1,0)` the basis
is `Dir = (1,0,0)`, `Right = (0,0,1)`, `Up = (0,1,0)`, and the first three entries of row 0
of the view matrix are `(0, 0, -1)`, not `Right`. -/
theorem View_row_ne_Right :
    matr.View Real.sqrt ⟨0, 0, 0⟩ ⟨1, 0, 0⟩ ⟨0, 1, 0⟩
      = ⟨0, 0, -1, 0,
         0, 1, 0, 0,
         1, 0, 0, 0,
         0, 0, 0, 1⟩ ∧
    vec3.Normalize Real.sqrt
      ((vec3.Normalize Real.sqrt (vec3.sub ⟨1, 0, 0⟩ ⟨0, 0, 0⟩)).cross ⟨0, 1, 0⟩)
      = ⟨0, 0, 1⟩ ∧
    (⟨(matr.View Real.sqrt ⟨0, 0, 0⟩ ⟨1, 0, 0⟩ ⟨0, 1, 0⟩).A00,
      (matr.View Real.sqrt ⟨0, 0, 0⟩ ⟨1, 0, 0⟩ ⟨0, 1, 0⟩).A01,
      (matr.View Real.sqrt ⟨0, 0, 0⟩ ⟨1, 0, 0⟩ ⟨0, 1, 0⟩).A02⟩ : vec3 ℝ)
      ≠ vec3.Normalize Real.sqrt
          ((vec3.Normalize Real.sqrt (vec3.sub ⟨1, 0, 0⟩ ⟨0, 0, 0⟩)).cross ⟨0, 1, 0⟩) := by
  have hD : vec3.Normalize Real.sqrt (vec3.sub (⟨1, 0, 0⟩ : vec3 ℝ) ⟨0, 0, 0⟩) = ⟨1, 0, 0⟩ := by
    norm_num [vec3.Normalize, vec3.sub, vec3.Length, vec3.divScalar]
  have hR : vec3.Normalize Real.sqrt ((⟨1, 0, 0⟩ : vec3 ℝ).cross ⟨0, 1, 0⟩) = ⟨0, 0, 1⟩ := by
    norm_num [vec3.Normalize, vec3.cross, vec3.Length, vec3.divScalar]
  have hV : matr.View Real.sqrt ⟨0, 0, 0⟩ ⟨1, 0, 0⟩ ⟨0, 1, 0⟩
      = ⟨0, 0, -1, 0, 0, 1, 0, 0, 1, 0, 0, 0, 0, 0, 0, 1⟩ := by
    simp only [matr.View, hD, hR]
    norm_num [vec3.cross, vec3.dot, vec3.neg]
  refine ⟨hV, ?_, ?_⟩
  · rw [hD, hR]
  · rw [hV, hD, hR]
    intro h
    have hZ := congrArg vec3.Z h
    norm_num at hZ

/-- C13, amended.  With `Dir = normalize(target - eye)`, `Right = normalize(Dir % up)` and
`Up = Right % Dir`, the view matrix holds the basis vectors as columns: column 0 is `Right`,
column 1 is `Up`, column 2 is `-Dir` (first three entries each), the fourth column is
`(0,0,0,1)` and row 3 is `(-(eye & Right), -(eye & Up), eye & Dir, 1)`.  No condition on the
inputs. -/
theorem View_columns [Field K] [DecidableEq K] (sqrt : K → K) (eye target up : vec3 K) :
    let Dir := (target.sub eye).Normalize sqrt
    let Right := (Dir.cross up).Normalize sqrt
    let Up := Right.cross Dir
    matr.View sqrt eye target up
      = ⟨Right.X, Up.X, -Dir.X, 0,
         Right.Y, Up.Y, -Dir.Y, 0,
         Right.Z, Up.Z, -Dir.Z, 0,
         -(eye.dot Right), -(eye.dot Up), eye.dot Dir, 1⟩ := by
  intro Dir Right Up
  ext <;> simp only [matr.View, vec3.dot, vec3.neg] <;> first | rfl | ring

end ViewLayout

section ViewFrame

variable {K : Type}

/-- Two unit orthogonal vectors `R`, `D` and `R % D`: the cross product is a unit vector
orthogonal to both, and `R % (R % D)` is `-D`. -/
lemma cross_frame_orthonormal [CommRing K] (R D : vec3 K)
    (h1 : R.Length2 = 1) (h2 : D.Length2 = 1) (h3 : R.dot D = 0) :
    (R.cross D).Length2 = 1 ∧ R.dot (R.cross D) = 0 ∧ (R.cross D).dot D = 0 ∧
    R.cross (R.cross D) = D.neg := by
  simp only [vec3.Length2, vec3.dot] at h1 h2 h3
  refine ⟨?_, ?_, ?_, ?_⟩
  · simp only [vec3.Length2, vec3.cross]
    linear_combination (D.X * D.X + D.Y * D.Y + D.Z * D.Z) * h1 + h2
      - (R.X * D.X + R.Y * D.Y + R.Z * D.Z) * h3
  · simp only [vec3.dot, vec3.cross]; ring
  · simp only [vec3.dot, vec3.cross]; ring
  · ext
    · simp only [vec3.cross, vec3.neg]; linear_combination R.X * h3 - D.X * h1
    · simp only [vec3.cross, vec3.neg]; linear_combination R.Y * h3 - D.Y * h1
    · simp only [vec3.cross, vec3.neg]; linear_combination R.Z * h3 - D.Z * h1

/-- Two unit orthogonal vectors `R`, `D` and `U = R % D` as the columns `R`, `U`, `-D` of a
tensor `B`: the product of `B` and its transpose is the identity. -/
lemma cross_frame_complete [CommRing K] (R D : vec3 K)
    (h1 : R.Length2 = 1) (h2 : D.Length2 = 1) (h3 : R.dot D = 0) :
    (tensor.mk R.X (R.cross D).X (-D.X) R.Y (R.cross D).Y (-D.Y)
        R.Z (R.cross D).Z (-D.Z)).mul
      (tensor.mk R.X (R.cross D).X (-D.X) R.Y (R.cross D).Y (-D.Y)
        R.Z (R.cross D).Z (-D.Z)).Transpose = tensor.Identity := by
  simp only [vec3.Length2, vec3.dot] at h1 h2 h3
  ext <;> simp only [tensor.mul, tensor.Transpose, tensor.Identity, vec3.cross]
  · linear_combination (D.X * D.X + D.Y * D.Y + D.Z * D.Z - D.X * D.X) * h1 + (1 - R.X * R.X) * h2
      + (R.X * D.X + R.X * D.X - (R.X * D.X + R.Y * D.Y + R.Z * D.Z)) * h3
  · linear_combination (-(D.X * D.Y)) * h1 + (-(R.X * R.Y)) * h2
      + (R.X * D.Y + R.Y * D.X) * h3
  · linear_combination (-(D.X * D.Z)) * h1 + (-(R.X * R.Z)) * h2
      + (R.X * D.Z + R.Z * D.X) * h3
  · linear_combination (-(D.Y * D.X)) * h1 + (-(R.Y * R.X)) * h2
      + (R.Y * D.X + R.X * D.Y) * h3
  · linear_combination (D.X * D.X + D.Y * D.Y + D.Z * D.Z - D.Y * D.Y) * h1 + (1 - R.Y * R.Y) * h2
      + (R.Y * D.Y + R.Y * D.Y - (R.X * D.X + R.Y * D.Y + R.Z * D.Z)) * h3
  · linear_combination (-(D.Y * D.Z)) * h1 + (-(R.Y * R.Z)) * h2
      + (R.Y * D.Z + R.Z * D.Y) * h3
  · linear_combination (-(D.Z * D.X)) * h1 + (-(R.Z * R.X)) * h2
      + (R.Z * D.X + R.X * D.Z) * h3
  · linear_combination (-(D.Z * D.Y)) * h1 + (-(R.Z * R.Y)) * h2
      + (R.Z * D.Y + R.Y * D.Z) * h3
  · linear_combination (D.X * D.X + D.Y * D.Y + D.Z * D.Z - D.Z * D.Z) * h1 + (1 - R.Z * R.Z) * h2
      + (R.Z * D.Z + R.Z * D.Z - (R.X * D.X + R.Y * D.Y + R.Z * D.Z)) * h3

/-- A real vector that is not zero has a positive squared length. -/
lemma vec3_sum_sq_pos (v : vec3 ℝ) (h : ¬ (v.X = 0 ∧ v.Y = 0 ∧ v.Z = 0)) :
    0 < v.X * v.X + v.Y * v.Y + v.Z * v.Z := by
  by_contra hn
  push_neg at hn
  have pX := mul_self_nonneg v.X
  have pY := mul_self_nonneg v.Y
  have pZ := mul_self_nonneg v.Z
  exact h ⟨mul_self_eq_zero.mp (le_antisymm (by linarith) pX),
    mul_self_eq_zero.mp (le_antisymm (by linarith) pY),
    mul_self_eq_zero.mp (le_antisymm (by linarith) pZ)⟩

/-- Over the reals `Normalize` of a vector that is not zero multiplies it by a non-zero
number `k`, the reciprocal of the length, and `k * k` times the squared length is one. -/
lemma vec3_Normalize_scale (v : vec3 ℝ) (h : ¬ (v.X = 0 ∧ v.Y = 0 ∧ v.Z = 0)) :
    ∃ k : ℝ, k ≠ 0 ∧ v.Normalize Real.sqrt = v.mulScalar k ∧ k * k * v.Length2 = 1 := by
  have hpos := vec3_sum_sq_pos v h
  have hL : 0 < Real.sqrt (v.X * v.X + v.Y * v.Y + v.Z * v.Z) := Real.sqrt_pos.mpr hpos
  have hLL := Real.mul_self_sqrt hpos.le
  refine ⟨(Real.sqrt (v.X * v.X + v.Y * v.Y + v.Z * v.Z))⁻¹, inv_ne_zero hL.ne', ?_, ?_⟩
  · simp only [vec3.Normalize, if_neg h, vec3.divScalar, vec3.Length, vec3.mulScalar,
      div_eq_mul_inv]
  · simp only [vec3.Length2]
    rw [← hLL]
    field_simp

/-- The squared length of a scaled vector, when the scale is the one of `Normalize`. -/
lemma vec3_Length2_mulScalar (v : vec3 ℝ) (k : ℝ) (hk : k * k * v.Length2 = 1) :
    (v.mulScalar k).Length2 = 1 := by
  simp only [vec3.Length2, vec3.mulScalar] at hk ⊢
  linear_combination hk

/-- The basis of `View` for inputs that are not degenerate: `Dir` and `Right` are unit
vectors and orthogonal. -/
lemma View_Dir_Right (eye target up : vec3 ℝ) (hne : target ≠ eye)
    (hpar : (target.sub eye).cross up ≠ ⟨0, 0, 0⟩) :
    ((target.sub eye).Normalize Real.sqrt).Length2 = 1 ∧
    ((((target.sub eye).Normalize Real.sqrt).cross up).Normalize Real.sqrt).Length2 = 1 ∧
    ((((target.sub eye).Normalize Real.sqrt).cross up).Normalize Real.sqrt).dot
      ((target.sub eye).Normalize Real.sqrt) = 0 := by
  have hd : ¬ ((target.sub eye).X = 0 ∧ (target.sub eye).Y = 0 ∧ (target.sub eye).Z = 0) := by
    rintro ⟨hx, hy, hz⟩
    apply hne
    simp only [vec3.sub] at hx hy hz
    ext
    · exact sub_eq_zero.mp hx
    · exact sub_eq_zero.mp hy
    · exact sub_eq_zero.mp hz
  obtain ⟨k1, hk1, hD, hk1n⟩ := vec3_Normalize_scale (target.sub eye) hd
  have hDlen : ((target.sub eye).Normalize Real.sqrt).Length2 = 1 := by
    rw [hD]; exact vec3_Length2_mulScalar _ _ hk1n
  have hcross : ((target.sub eye).Normalize Real.sqrt).cross up
      = ((target.sub eye).cross up).mulScalar k1 := by
    rw [hD]
    ext <;> simp only [vec3.cross, vec3.mulScalar] <;> ring
  have hc : ¬ ((((target.sub eye).Normalize Real.sqrt).cross up).X = 0 ∧
      (((target.sub eye).Normalize Real.sqrt).cross up).Y = 0 ∧
      (((target.sub eye).Normalize Real.sqrt).cross up).Z = 0) := by
    rw [hcross]
    rintro ⟨hx, hy, hz⟩
    apply hpar
    simp only [vec3.mulScalar] at hx hy hz
    ext
    · exact (mul_eq_zero.mp hx).resolve_right hk1
    · exact (mul_eq_zero.mp hy).resolve_right hk1
    · exact (mul_eq_zero.mp hz).resolve_right hk1
  obtain ⟨k2, _, hR, hk2n⟩ :=
    vec3_Normalize_scale (((target.sub eye).Normalize Real.sqrt).cross up) hc
  refine ⟨hDlen, ?_, ?_⟩
  · rw [hR]; exact vec3_Length2_mulScalar _ _ hk2n
  · rw [hR]
    simp only [vec3.dot, vec3.mulScalar, vec3.cross]
    ring

/-- C12. Over the reals, for `target ≠ eye` and `up` not parallel to `target - eye` (their
cross product is not zero), the three basis vectors held in the upper-left 3x3 block `B` of
`View(eye, target, up)` (`Right`, `Up` and, negated, `Dir`) are unit vectors, pairwise
orthogonal, and `B` times its transpose is the identity.  For `eye = (0,0,5)`,
`target = (0,0,0)`, `up = (0,1,0)` the matrix holds `Right = (1,0,0)`, `Up = (0,1,0)` and
`-Dir = (0,0,1)`. -/
theorem View_block_orthonormal (eye target up : vec3 ℝ) (hne : target ≠ eye)
    (hpar : (target.sub eye).cross up ≠ ⟨0, 0, 0⟩) :
    let M := matr.View Real.sqrt eye target up
    let Right : vec3 ℝ := ⟨M.A00, M.A10, M.A20⟩
    let Up : vec3 ℝ := ⟨M.A01, M.A11, M.A21⟩
    let Dir : vec3 ℝ := ⟨-M.A02, -M.A12, -M.A22⟩
    (Right.Length2 = 1 ∧ Up.Length2 = 1 ∧ Dir.Length2 = 1) ∧
    (Right.dot Up = 0 ∧ Right.dot Dir = 0 ∧ Up.dot Dir = 0) ∧
    (tensor.mk M.A00 M.A01 M.A02 M.A10 M.A11 M.A12 M.A20 M.A21 M.A22).mul
      (tensor.mk M.A00 M.A01 M.A02 M.A10 M.A11 M.A12 M.A20 M.A21 M.A22).Transpose
      = tensor.Identity ∧
    matr.View Real.sqrt ⟨0, 0, 5⟩ ⟨0, 0, 0⟩ ⟨0, 1, 0⟩
      = ⟨1, 0, 0, 0,
         0, 1, 0, 0,
         0, 0, 1, 0,
         0, 0, -5, 1⟩ := by
  intro M Right Up Dir
  obtain ⟨hD, hR, hRD⟩ := View_Dir_Right eye target up hne hpar
  obtain ⟨hU, hRU, hUD, _⟩ := cross_frame_orthonormal _ _ hR hD hRD
  have hB := cross_frame_complete _ _ hR hD hRD
  have hDir : Dir = (target.sub eye).Normalize Real.sqrt := by
    ext <;> simp only [Dir, M, matr.View, neg_neg]
  refine ⟨⟨hR, hU, ?_⟩, ⟨hRU, ?_, ?_⟩, hB, ?_⟩
  · rw [hDir]; exact hD
  · rw [hDir]; exact hRD
  · rw [hDir]; exact hUD
  · have h25 : Real.sqrt 25 = 5 := by
      rw [show (25 : ℝ) = 5 ^ 2 by norm_num]
      exact Real.sqrt_sq (by norm_num)
    have hD0 : vec3.Normalize Real.sqrt (vec3.sub (⟨0, 0, 0⟩ : vec3 ℝ) ⟨0, 0, 5⟩)
        = ⟨0, 0, -1⟩ := by
      norm_num [vec3.Normalize, vec3.sub, vec3.Length, vec3.divScalar, h25]
    have hR0 : vec3.Normalize Real.sqrt ((⟨0, 0, -1⟩ : vec3 ℝ).cross ⟨0, 1, 0⟩)
        = ⟨1, 0, 0⟩ := by
      norm_num [vec3.Normalize, vec3.cross, vec3.Length, vec3.divScalar]
    simp only [matr.View, hD0, hR0]
    norm_num [vec3.cross, vec3.dot, vec3.neg]

/-- C12, at `eye = (0,0,5)`, `target = (0,0,0)`, `up = (0,1,0)`. -/
theorem View_block_orthonormal_witness :
    (⟨0, 0, 0⟩ : vec3 ℝ) ≠ ⟨0, 0, 5⟩ ∧
    (vec3.sub (⟨0, 0, 0⟩ : vec3 ℝ) ⟨0, 0, 5⟩).cross ⟨0, 1, 0⟩ ≠ ⟨0, 0, 0⟩ ∧
    (tensor.mk (matr.View Real.sqrt ⟨0, 0, 5⟩ ⟨0, 0, 0⟩ ⟨0, 1, 0⟩).A00
        (matr.View Real.sqrt ⟨0, 0, 5⟩ ⟨0, 0, 0⟩ ⟨0, 1, 0⟩).A01
        (matr.View Real.sqrt ⟨0, 0, 5⟩ ⟨0, 0, 0⟩ ⟨0, 1, 0⟩).A02
        (matr.View Real.sqrt ⟨0, 0, 5⟩ ⟨0, 0, 0⟩ ⟨0, 1, 0⟩).A10
        (matr.View Real.sqrt ⟨0, 0, 5⟩ ⟨0, 0, 0⟩ ⟨0, 1, 0⟩).A11
        (matr.View Real.sqrt ⟨0, 0, 5⟩ ⟨0, 0, 0⟩ ⟨0, 1, 0⟩).A12
        (matr.View Real.sqrt ⟨0, 0, 5⟩ ⟨0, 0, 0⟩ ⟨0, 1, 0⟩).A20
        (matr.View Real.sqrt ⟨0, 0, 5⟩ ⟨0, 0, 0⟩ ⟨0, 1, 0⟩).A21
        (matr.View Real.sqrt ⟨0, 0, 5⟩ ⟨0, 0, 0⟩ ⟨0, 1, 0⟩).A22).mul
      (tensor.mk (matr.View Real.sqrt ⟨0, 0, 5⟩ ⟨0, 0, 0⟩ ⟨0, 1, 0⟩).A00
        (matr.View Real.sqrt ⟨0, 0, 5⟩ ⟨0, 0, 0⟩ ⟨0, 1, 0⟩).A01
        (matr.View Real.sqrt ⟨0, 0, 5⟩ ⟨0, 0, 0⟩ ⟨0, 1, 0⟩).A02
        (matr.View Real.sqrt ⟨0, 0, 5⟩ ⟨0, 0, 0⟩ ⟨0, 1, 0⟩).A10
        (matr.View Real.sqrt ⟨0, 0, 5⟩ ⟨0, 0, 0⟩ ⟨0, 1, 0⟩).A11
        (matr.View Real.sqrt ⟨0, 0, 5⟩ ⟨0, 0, 0⟩ ⟨0, 1, 0⟩).A12
        (matr.View Real.sqrt ⟨0, 0, 5⟩ ⟨0, 0, 0⟩ ⟨0, 1, 0⟩).A20
        (matr.View Real.sqrt ⟨0, 0, 5⟩ ⟨0, 0, 0⟩ ⟨0, 1, 0⟩).A21
        (matr.View Real.sqrt ⟨0, 0, 5⟩ ⟨0, 0, 0⟩ ⟨0, 1, 0⟩).A22).Transpose
      = tensor.Identity :=
  ⟨fun h => by have hZ := congrArg vec3.Z h; norm_num at hZ,
   fun h => by have hX := congrArg vec3.X h; norm_num [vec3.sub, vec3.cross] at hX,
   (View_block_orthonormal ⟨0, 0, 5⟩ ⟨0, 0, 0⟩ ⟨0, 1, 0⟩
      (fun h => by have hZ := congrArg vec3.Z h; norm_num at hZ)
      (fun h => by have hX := congrArg vec3.X h; norm_num [vec3.sub, vec3.cross] at hX)).2.2.1⟩

end ViewFrame

section Camera

variable {K : Type}

/-- C15. After `Set`, after `ProjSet` and after `Resize` with both sizes non-zero, `MatrVP` is
the product `MatrView * MatrProj` of the matrices stored at that moment; `Set` leaves
`MatrProj` as it was, `ProjSet` and `Resize` leave `MatrView` as it was. -/
theorem MatrVP_eq_MatrView_mul_MatrProj [Field K] [DecidableEq K] (sqrt : K → K)
    (c : camera K) (loc pivot up : vec3 K) (W H : Int) :
    ((c.Set sqrt loc pivot up).MatrVP
        = (c.Set sqrt loc pivot up).MatrView.mul (c.Set sqrt loc pivot up).MatrProj ∧
      (c.Set sqrt loc pivot up).MatrProj = c.MatrProj) ∧
    (c.ProjSet.MatrVP = c.ProjSet.MatrView.mul c.ProjSet.MatrProj ∧
      c.ProjSet.MatrView = c.MatrView) ∧
    (W ≠ 0 → H ≠ 0 →
      (c.Resize W H).MatrVP = (c.Resize W H).MatrView.mul (c.Resize W H).MatrProj ∧
      (c.Resize W H).MatrView = c.MatrView) := by
  refine ⟨⟨rfl, rfl⟩, ⟨rfl, rfl⟩, ?_⟩
  intro hW hH
  have hcond : ¬ (W = 0 ∨ H = 0) := not_or.mpr ⟨hW, hH⟩
  simp only [camera.Resize, if_neg hcond]
  exact ⟨rfl, rfl⟩

/-- C15, at the sample camera resized to 800 x 600. -/
theorem MatrVP_eq_MatrView_mul_MatrProj_witness :
    (800 : Int) ≠ 0 ∧ (600 : Int) ≠ 0 ∧
    ((camera.sample ℚ).Resize 800 600).MatrVP
      = ((camera.sample ℚ).Resize 800 600).MatrView.mul ((camera.sample ℚ).Resize 800 600).MatrProj ∧
    ((camera.sample ℚ).Resize 800 600).MatrView = (camera.sample ℚ).MatrView :=
  ⟨by decide, by decide,
   (MatrVP_eq_MatrView_mul_MatrProj (fun x => x) (camera.sample ℚ) ⟨0, 0, 5⟩ ⟨0, 0, 0⟩ ⟨0, 1, 0⟩
      800 600).2.2 (by decide) (by decide)⟩

/-- C16. `Resize(W, H)` with `W == 0` or `H == 0` returns the camera with every member
unchanged. -/
theorem Resize_zero_eq_self [Field K] (c : camera K) (W H : Int) (h : W = 0 ∨ H = 0) :
    c.Resize W H = c := by
  simp only [camera.Resize, if_pos h]

/-- C16, at the sample camera and the sizes `0 x 480`. -/
theorem Resize_zero_eq_self_witness :
    ((0 : Int) = 0 ∨ (480 : Int) = 0) ∧ (camera.sample ℚ).Resize 0 480 = (camera.sample ℚ) :=
  ⟨Or.inl rfl, Resize_zero_eq_self (camera.sample ℚ) 0 480 (Or.inl rfl)⟩

/-- C17. `Resize(W, H)` with both sizes non-zero is `ProjSet` on the camera with the new frame
size.  The frame size becomes `W x H`, and both numbers, the only frame dimensions `ProjSet`
divides by, are not zero; `Wp` and `Hp` are `ProjSize`, one of them times the aspect ratio;
`MatrProj` is `Frustum(-Wp / 2, Wp / 2, -Hp / 2, Hp / 2, ProjDist, FarClip)`; the vectors,
`ProjDist`, `ProjSize`, `FarClip` and `MatrView` are unchanged. -/
theorem Resize_nonzero [Field K] (c : camera K) (W H : Int) (hW : W ≠ 0) (hH : H ≠ 0) :
    c.Resize W H = camera.ProjSet { c with FrameW := W, FrameH := H } ∧
    ((c.Resize W H).FrameW = W ∧ (c.Resize W H).FrameH = H) ∧
    ((c.Resize W H).FrameW ≠ 0 ∧ (c.Resize W H).FrameH ≠ 0) ∧
    (c.Resize W H).Wp
      = (if W > H then c.ProjSize * ((W : K) / (H : K)) else c.ProjSize) ∧
    (c.Resize W H).Hp
      = (if W > H then c.ProjSize else c.ProjSize * ((H : K) / (W : K))) ∧
    (c.Resize W H).MatrProj
      = matr.Frustum (-(c.Resize W H).Wp / 2) ((c.Resize W H).Wp / 2)
          (-(c.Resize W H).Hp / 2) ((c.Resize W H).Hp / 2) c.ProjDist c.FarClip ∧
    ((c.Resize W H).Loc = c.Loc ∧ (c.Resize W H).At = c.At ∧ (c.Resize W H).Dir = c.Dir ∧
      (c.Resize W H).Right = c.Right ∧ (c.Resize W H).Up = c.Up) ∧
    ((c.Resize W H).ProjDist = c.ProjDist ∧ (c.Resize W H).ProjSize = c.ProjSize ∧
      (c.Resize W H).FarClip = c.FarClip ∧ (c.Resize W H).MatrView = c.MatrView) := by
  have hcond : ¬ (W = 0 ∨ H = 0) := not_or.mpr ⟨hW, hH⟩
  have hR : c.Resize W H = camera.ProjSet { c with FrameW := W, FrameH := H } := by
    simp only [camera.Resize, if_neg hcond]
  rw [hR]
  exact ⟨rfl, ⟨rfl, rfl⟩, ⟨hW, hH⟩, rfl, rfl, rfl, ⟨rfl, rfl, rfl, rfl, rfl⟩, rfl, rfl, rfl, rfl⟩

/-- C17, at the sample camera resized to 800 x 600: the new `Wp` is `ProjSize * (800 / 600)`
and the new `Hp` is `ProjSize`. -/
theorem Resize_nonzero_witness :
    (800 : Int) ≠ 0 ∧ (600 : Int) ≠ 0 ∧
    ((camera.sample ℚ).Resize 800 600).FrameW = 800 ∧
    ((camera.sample ℚ).Resize 800 600).FrameH = 600 ∧
    ((camera.sample ℚ).Resize 800 600).Wp
      = (if (800 : Int) > 600 then (camera.sample ℚ).ProjSize * (((800 : Int) : ℚ) / ((600 : Int) : ℚ))
          else (camera.sample ℚ).ProjSize) :=
  ⟨by decide, by decide,
   (Resize_nonzero (camera.sample ℚ) 800 600 (by decide) (by decide)).2.1.1,
   (Resize_nonzero (camera.sample ℚ) 800 600 (by decide) (by decide)).2.1.2,
   (Resize_nonzero (camera.sample ℚ) 800 600 (by decide) (by decide)).2.2.2.1⟩

/-- C18 as stated fails.  For the frame `2 x 1` and `ProjSize = 1`, `ProjSet` leaves
`Wp = 2` and `Hp = 1`: the extent of the larger dimension (the width) is not `ProjSize`, and
the extent of the smaller dimension (the height) is not `ProjSize` times the aspect ratio
`2 / 1`. -/
theorem ProjSet_larger_extent_ne_ProjSize :
    (camera.ProjSet { camera.sample ℚ with FrameW := 2, FrameH := 1, ProjSize := 1 }).Wp = 2 ∧
    (camera.ProjSet { camera.sample ℚ with FrameW := 2, FrameH := 1, ProjSize := 1 }).Hp = 1 ∧
    (camera.ProjSet { camera.sample ℚ with FrameW := 2, FrameH := 1, ProjSize := 1 }).Wp
      ≠ ({ camera.sample ℚ with FrameW := 2, FrameH := 1, ProjSize := 1 } : camera ℚ).ProjSize ∧
    (camera.ProjSet { camera.sample ℚ with FrameW := 2, FrameH := 1, ProjSize := 1 }).Hp
      ≠ ({ camera.sample ℚ with FrameW := 2, FrameH := 1, ProjSize := 1 } : camera ℚ).ProjSize
          * (((max 2 1 : Int) : ℚ) / ((min 2 1 : Int) : ℚ)) := by
  refine ⟨?_, ?_, ?_, ?_⟩ <;> norm_num [camera.ProjSet, camera.sample]

/-- C18, amended.  After `ProjSet()` the extent of the smaller frame dimension is `ProjSize`
and the extent of the larger frame dimension is `ProjSize` times the aspect ratio, larger
over smaller: for `FrameW > FrameH`, `Hp = ProjSize` and `Wp = ProjSize * (FrameW / FrameH)`;
for `FrameW < FrameH`, `Wp = ProjSize` and `Hp = ProjSize * (FrameH / FrameW)`. -/
theorem ProjSet_extents [Field K] (c : camera K) :
    (c.FrameH < c.FrameW →
      c.ProjSet.Hp = c.ProjSize ∧
      c.ProjSet.Wp = c.ProjSize * ((c.FrameW : K) / (c.FrameH : K))) ∧
    (c.FrameW < c.FrameH →
      c.ProjSet.Wp = c.ProjSize ∧
      c.ProjSet.Hp = c.ProjSize * ((c.FrameH : K) / (c.FrameW : K))) := by
  constructor
  · intro h
    have hgt : c.FrameW > c.FrameH := h
    simp only [camera.ProjSet, if_pos hgt, and_self]
  · intro h
    have hgt : ¬ (c.FrameW > c.FrameH) := not_lt.mpr (le_of_lt h)
    simp only [camera.ProjSet, if_neg hgt, and_self]

/-- C18 amended, at the sample camera, whose frame is 1432 x 720: `Hp` is `ProjSize` and `Wp`
is `ProjSize * (1432 / 720)`. -/
theorem ProjSet_extents_witness :
    (camera.sample ℚ).FrameH < (camera.sample ℚ).FrameW ∧
    (camera.sample ℚ).ProjSet.Hp = (camera.sample ℚ).ProjSize ∧
    (camera.sample ℚ).ProjSet.Wp
      = (camera.sample ℚ).ProjSize
          * (((camera.sample ℚ).FrameW : ℚ) / ((camera.sample ℚ).FrameH : ℚ)) :=
  ⟨by decide, (ProjSet_extents (camera.sample ℚ)).1 (by decide)⟩

end Camera

section Determinant

variable {K : Type}

/-- C20. The determinant operator of `matr`, the expansion along row 0 through `Determ3x3`,
is the determinant of Mathlib (the sum over permutations) of the 4x4 matrix of the entries. -/
theorem det_eq_Matrix_det [CommRing K] (M : matr K) : M.det = Matrix.det M.toMatrix := by
  have m0 : M.toMatrix.submatrix Fin.succ (Fin.succAbove 0)
      = !![M.A11, M.A12, M.A13; M.A21, M.A22, M.A23; M.A31, M.A32, M.A33] := by
    ext i j; fin_cases i <;> fin_cases j <;> rfl
  have m1 : M.toMatrix.submatrix Fin.succ (Fin.succAbove 1)
      = !![M.A10, M.A12, M.A13; M.A20, M.A22, M.A23; M.A30, M.A32, M.A33] := by
    ext i j; fin_cases i <;> fin_cases j <;> rfl
  have m2 : M.toMatrix.submatrix Fin.succ (Fin.succAbove 2)
      = !![M.A10, M.A11, M.A13; M.A20, M.A21, M.A23; M.A30, M.A31, M.A33] := by
    ext i j; fin_cases i <;> fin_cases j <;> rfl
  have m3 : M.toMatrix.submatrix Fin.succ (Fin.succAbove 3)
      = !![M.A10, M.A11, M.A12; M.A20, M.A21, M.A22; M.A30, M.A31, M.A32] := by
    ext i j; fin_cases i <;> fin_cases j <;> rfl
  have e0 : M.toMatrix 0 0 = M.A00 := rfl
  have e1 : M.toMatrix 0 1 = M.A01 := rfl
  have e2 : M.toMatrix 0 2 = M.A02 := rfl
  have e3 : M.toMatrix 0 3 = M.A03 := rfl
  rw [Matrix.det_succ_row_zero, Fin.sum_univ_four, m0, m1, m2, m3, e0, e1, e2, e3]
  have v1 : ((1 : Fin 4) : ℕ) = 1 := rfl
  have v2 : ((2 : Fin 4) : ℕ) = 2 := rfl
  have v3 : ((3 : Fin 4) : ℕ) = 3 := rfl
  simp only [Matrix.det_fin_three, matr.det, matr.Determ4x4, matr.Determ3x3, Fin.val_zero,
    v1, v2, v3, Matrix.of_apply, Matrix.cons_val_zero, Matrix.cons_val_one, Matrix.cons_val_two,
    Matrix.head_cons, Matrix.tail_cons, Matrix.cons_val_succ]
  ring

end Determinant

section NormalTransform

variable {K : Type}

/-- Three products with quotients over one denominator, as one quotient. -/
lemma sum_mul_div_same_three [Field K] (a b c x y z δ : K) :
    a * (x / δ) + b * (y / δ) + c * (z / δ) = (a * x + b * y + c * z) / δ := by
  ring

/-- For a matrix with non-zero determinant whose fourth column is zero above the corner,
the upper-left block times the upper-left block of `Inverse()` is the identity tensor. -/
lemma block_mul_Inverse_block [Field K] [DecidableEq K] (M : matr K) (h : M.det ≠ 0)
    (h03 : M.A03 = 0) (h13 : M.A13 = 0) (h23 : M.A23 = 0) :
    (tensor.mk M.A00 M.A01 M.A02 M.A10 M.A11 M.A12 M.A20 M.A21 M.A22).mul
      (tensor.mk M.Inverse.A00 M.Inverse.A01 M.Inverse.A02 M.Inverse.A10 M.Inverse.A11
        M.Inverse.A12 M.Inverse.A20 M.Inverse.A21 M.Inverse.A22) = tensor.Identity := by
  rw [matr_Inverse_of_det_ne_zero M h]
  ext <;> simp only [tensor.mul, tensor.Identity] <;>
    rw [sum_mul_div_same_three, div_eq_iff h] <;>
    simp only [matr.det, matr.Determ4x4, matr.Determ3x3, h03, h13, h23] <;> ring

/-- The same fact for the matrices of Mathlib: the upper-left block of `Inverse()` is the
inverse of the upper-left block. -/
lemma block3_inv_eq [Field K] [DecidableEq K] (M : matr K) (h : M.det ≠ 0)
    (h03 : M.A03 = 0) (h13 : M.A13 = 0) (h23 : M.A23 = 0) :
    M.block3⁻¹ = M.Inverse.block3 := by
  have hT := block_mul_Inverse_block M h h03 h13 h23
  have e00 := congrArg tensor.A00 hT
  have e01 := congrArg tensor.A01 hT
  have e02 := congrArg tensor.A02 hT
  have e10 := congrArg tensor.A10 hT
  have e11 := congrArg tensor.A11 hT
  have e12 := congrArg tensor.A12 hT
  have e20 := congrArg tensor.A20 hT
  have e21 := congrArg tensor.A21 hT
  have e22 := congrArg tensor.A22 hT
  simp only [tensor.mul, tensor.Identity] at e00 e01 e02 e10 e11 e12 e20 e21 e22
  apply Matrix.inv_eq_right_inv
  simp only [matr.block3]
  rw [Matrix.mul_fin_three, Matrix.one_fin_three, e00, e01, e02, e10, e11, e12, e20, e21, e22]

/-- C19 as stated fails.  The matrix with rows `(1,0,0,1)`, `(0,1,0,0)`, `(0,0,1,0)`,
`(1,0,0,2)` has determinant one and the identity as its upper-left block `L`, but
`NormalTransform((1,0,0))` is `(2,0,0)`: the code takes the block of the inverse of the
whole 4x4 matrix, not the inverse of the block. -/
theorem NormalTransform_ne_block_inverse :
    matr.det (⟨1, 0, 0, 1, 0, 1, 0, 0, 0, 0, 1, 0, 1, 0, 0, 2⟩ : matr ℚ) = 1 ∧
    (matr.block3 (⟨1, 0, 0, 1, 0, 1, 0, 0, 0, 0, 1, 0, 1, 0, 0, 2⟩ : matr ℚ))⁻¹ = 1 ∧
    matr.NormalTransform (⟨1, 0, 0, 1, 0, 1, 0, 0, 0, 0, 1, 0, 1, 0, 0, 2⟩ : matr ℚ) ⟨1, 0, 0⟩
      = ⟨2, 0, 0⟩ ∧
    matr.NormalTransform (⟨1, 0, 0, 1, 0, 1, 0, 0, 0, 0, 1, 0, 1, 0, 0, 2⟩ : matr ℚ) ⟨1, 0, 0⟩
      ≠ ⟨1 * (matr.block3 (⟨1, 0, 0, 1, 0, 1, 0, 0, 0, 0, 1, 0, 1, 0, 0, 2⟩ : matr ℚ))⁻¹ 0 0
          + 0 * (matr.block3 (⟨1, 0, 0, 1, 0, 1, 0, 0, 0, 0, 1, 0, 1, 0, 0, 2⟩ : matr ℚ))⁻¹ 0 1
          + 0 * (matr.block3 (⟨1, 0, 0, 1, 0, 1, 0, 0, 0, 0, 1, 0, 1, 0, 0, 2⟩ : matr ℚ))⁻¹ 0 2,
         1 * (matr.block3 (⟨1, 0, 0, 1, 0, 1, 0, 0, 0, 0, 1, 0, 1, 0, 0, 2⟩ : matr ℚ))⁻¹ 1 0
          + 0 * (matr.block3 (⟨1, 0, 0, 1, 0, 1, 0, 0, 0, 0, 1, 0, 1, 0, 0, 2⟩ : matr ℚ))⁻¹ 1 1
          + 0 * (matr.block3 (⟨1, 0, 0, 1, 0, 1, 0, 0, 0, 0, 1, 0, 1, 0, 0, 2⟩ : matr ℚ))⁻¹ 1 2,
         1 * (matr.block3 (⟨1, 0, 0, 1, 0, 1, 0, 0, 0, 0, 1, 0, 1, 0, 0, 2⟩ : matr ℚ))⁻¹ 2 0
          + 0 * (matr.block3 (⟨1, 0, 0, 1, 0, 1, 0, 0, 0, 0, 1, 0, 1, 0, 0, 2⟩ : matr ℚ))⁻¹ 2 1
          + 0 * (matr.block3 (⟨1, 0, 0, 1, 0, 1, 0, 0, 0, 0, 1, 0, 1, 0, 0, 2⟩ : matr ℚ))⁻¹ 2 2⟩ := by
  have hd : matr.det (⟨1, 0, 0, 1, 0, 1, 0, 0, 0, 0, 1, 0, 1, 0, 0, 2⟩ : matr ℚ) = 1 := by
    norm_num [matr.det, matr.Determ4x4, matr.Determ3x3]
  have hb : matr.block3 (⟨1, 0, 0, 1, 0, 1, 0, 0, 0, 0, 1, 0, 1, 0, 0, 2⟩ : matr ℚ) = 1 := by
    simp only [matr.block3, Matrix.one_fin_three]
  have hbi : (matr.block3 (⟨1, 0, 0, 1, 0, 1, 0, 0, 0, 0, 1, 0, 1, 0, 0, 2⟩ : matr ℚ))⁻¹ = 1 := by
    rw [hb, inv_one]
  have hN : matr.NormalTransform (⟨1, 0, 0, 1, 0, 1, 0, 0, 0, 0, 1, 0, 1, 0, 0, 2⟩ : matr ℚ)
      ⟨1, 0, 0⟩ = ⟨2, 0, 0⟩ := by
    have h1 : (1 : ℚ) ≠ 0 := one_ne_zero
    simp only [matr.NormalTransform, matr.Inverse, hd, if_neg h1, matr.Transpose]
    norm_num [matr.Determ3x3]
  refine ⟨hd, hbi, hN, ?_⟩
  rw [hN, hbi]
  intro hEq
  have hX := congrArg vec3.X hEq
  norm_num at hX

/-- C19, amended.  Over a field, for a matrix `M` with non-zero determinant whose fourth
column is zero above the corner entry (`A[0][3] = A[1][3] = A[2][3] = 0`, as for every matrix
with fourth column `(0,0,0,1)`), `NormalTransform(v)` is `v` times the transpose of the
inverse of the upper-left 3x3 block `L`: component `i` is the sum of `v[j] * (L⁻¹)[i][j]`. -/
theorem NormalTransform_eq_block_inverse [Field K] [DecidableEq K] (M : matr K) (v : vec3 K)
    (h : M.det ≠ 0) (h03 : M.A03 = 0) (h13 : M.A13 = 0) (h23 : M.A23 = 0) :
    M.NormalTransform v
      = ⟨v.X * M.block3⁻¹ 0 0 + v.Y * M.block3⁻¹ 0 1 + v.Z * M.block3⁻¹ 0 2,
         v.X * M.block3⁻¹ 1 0 + v.Y * M.block3⁻¹ 1 1 + v.Z * M.block3⁻¹ 1 2,
         v.X * M.block3⁻¹ 2 0 + v.Y * M.block3⁻¹ 2 1 + v.Z * M.block3⁻¹ 2 2⟩ := by
  rw [block3_inv_eq M h h03 h13 h23]
  rfl

/-- C19 amended, at the scale by two followed by a translation. -/
theorem NormalTransform_eq_block_inverse_witness :
    matr.det (⟨2, 0, 0, 0, 0, 2, 0, 0, 0, 0, 2, 0, 1, 2, 3, 1⟩ : matr ℚ) ≠ 0 ∧
    matr.NormalTransform (⟨2, 0, 0, 0, 0, 2, 0, 0, 0, 0, 2, 0, 1, 2, 3, 1⟩ : matr ℚ) ⟨1, 1, 1⟩
      = ⟨1 * (matr.block3 (⟨2, 0, 0, 0, 0, 2, 0, 0, 0, 0, 2, 0, 1, 2, 3, 1⟩ : matr ℚ))⁻¹ 0 0
          + 1 * (matr.block3 (⟨2, 0, 0, 0, 0, 2, 0, 0, 0, 0, 2, 0, 1, 2, 3, 1⟩ : matr ℚ))⁻¹ 0 1
          + 1 * (matr.block3 (⟨2, 0, 0, 0, 0, 2, 0, 0, 0, 0, 2, 0, 1, 2, 3, 1⟩ : matr ℚ))⁻¹ 0 2,
         1 * (matr.block3 (⟨2, 0, 0, 0, 0, 2, 0, 0, 0, 0, 2, 0, 1, 2, 3, 1⟩ : matr ℚ))⁻¹ 1 0
          + 1 * (matr.block3 (⟨2, 0, 0, 0, 0, 2, 0, 0, 0, 0, 2, 0, 1, 2, 3, 1⟩ : matr ℚ))⁻¹ 1 1
          + 1 * (matr.block3 (⟨2, 0, 0, 0, 0, 2, 0, 0, 0, 0, 2, 0, 1, 2, 3, 1⟩ : matr ℚ))⁻¹ 1 2,
         1 * (matr.block3 (⟨2, 0, 0, 0, 0, 2, 0, 0, 0, 0, 2, 0, 1, 2, 3, 1⟩ : matr ℚ))⁻¹ 2 0
          + 1 * (matr.block3 (⟨2, 0, 0, 0, 0, 2, 0, 0, 0, 0, 2, 0, 1, 2, 3, 1⟩ : matr ℚ))⁻¹ 2 1
          + 1 * (matr.block3 (⟨2, 0, 0, 0, 0, 2, 0, 0, 0, 0, 2, 0, 1, 2, 3, 1⟩ : matr ℚ))⁻¹ 2 2⟩ :=
  ⟨by norm_num [matr.det, matr.Determ4x4, matr.Determ3x3],
   NormalTransform_eq_block_inverse _ ⟨1, 1, 1⟩
     (by norm_num [matr.det, matr.Determ4x4, matr.Determ3x3]) rfl rfl rfl⟩

end NormalTransform

section Builders

variable {K : Type}

/-- C21. The determinant of the uniform scale matrix `Scale(k)` is `k³`, and the determinant
of `Identity()` is one. -/
theorem det_ScaleScalar [CommRing K] (k : K) :
    (matr.ScaleScalar k).det = k ^ 3 ∧ (matr.Identity : matr K).det = 1 := by
  constructor
  · simp only [matr.det, matr.Determ4x4, matr.Determ3x3, matr.ScaleScalar]
    ring
  · simp only [matr.det, matr.Determ4x4, matr.Determ3x3, matr.Identity]
    ring

/-- C23. `Frustum(l, r, t, b, n, f)` has the rows `(2n/(r-l), 0, 0, 0)`, `(0, 2n/(t-b), 0, 0)`,
`((r+l)/(r-l), (t+b)/(t-b), (f+n)/(n-f), -1)`, `(0, 0, 2nf/(n-f), 0)`; over the rationals,
`Frustum(-1, 1, -1, 1, 1, 100)` has the rows `(1,0,0,0)`, `(0,-1,0,0)`, `(0,0,-101/99,-1)`,
`(0,0,-200/99,0)`. -/
theorem Frustum_rows (l r t b n f : ℚ) :
    matr.Frustum l r t b n f
      = ⟨2 * n / (r - l), 0, 0, 0,
         0, 2 * n / (t - b), 0, 0,
         (r + l) / (r - l), (t + b) / (t - b), (f + n) / (n - f), -1,
         0, 0, 2 * n * f / (n - f), 0⟩ ∧
    matr.Frustum (-1 : ℚ) 1 (-1) 1 1 100
      = ⟨1, 0, 0, 0,
         0, -1, 0, 0,
         0, 0, -101 / 99, -1,
         0, 0, -200 / 99, 0⟩ := by
  refine ⟨rfl, ?_⟩
  ext <;> simp only [matr.Frustum] <;> norm_num

/-- C24. `Ortho(l, r, b, t, n, f)` has the rows `(2/(r-l), 0, 0, 0)`, `(0, 2/(t-b), 0, 0)`,
`(0, 0, -2/(f-n), 0)`, `(-(l+r)/(r-l), -(t+b)/(t-b), -(f+n)/(f-n), 1)`; over the rationals,
`Ortho(-1, 1, -1, 1, 1, 100)` has the rows `(1,0,0,0)`, `(0,1,0,0)`, `(0,0,-2/99,0)`,
`(0,0,-101/99,1)`. -/
theorem Ortho_rows (l r b t n f : ℚ) :
    matr.Ortho l r b t n f
      = ⟨2 / (r - l), 0, 0, 0,
         0, 2 / (t - b), 0, 0,
         0, 0, -2 / (f - n), 0,
         -(l + r) / (r - l), -(t + b) / (t - b), -(f + n) / (f - n), 1⟩ ∧
    matr.Ortho (-1 : ℚ) 1 (-1) 1 1 100
      = ⟨1, 0, 0, 0,
         0, 1, 0, 0,
         0, 0, -2 / 99, 0,
         0, 0, -101 / 99, 1⟩ := by
  refine ⟨rfl, ?_⟩
  ext <;> simp only [matr.Ortho] <;> norm_num

/-- C25. For a receiver `A` and an argument `B` held in another object, after `A *= B` the
receiver is the product `A * B` of the values before the call and the argument is unchanged,
for `matr` and for `tensor`. -/
theorem mulAssign_eq_mul [Add K] [Mul K] (A B : matr K) (S T : tensor K) :
    matr.mulAssign A B = (A.mul B, B) ∧ tensor.mulAssign S T = (S.mul T, T) :=
  ⟨rfl, rfl⟩

/-- C27. `Translate(t).PointTransform(v)` is `v + t`, `Translate(t).VectorTransform(v)` is `v`,
and `Scale(s).PointTransform(v)` is the component-wise product of `v` and `s`. -/
theorem Translate_Scale_transform [Semiring K] (t v s : vec3 K) :
    (matr.Translate t).PointTransform v = v.add t ∧
    (matr.Translate t).VectorTransform v = v ∧
    (matr.Scale s).PointTransform v = v.mul s := by
  refine ⟨?_, ?_, ?_⟩
  · ext <;>
      simp only [matr.PointTransform, matr.Translate, vec3.add, mul_one, mul_zero, add_zero,
        zero_add]
  · ext <;>
      simp only [matr.VectorTransform, matr.Translate, mul_one, mul_zero, add_zero, zero_add]
  · ext <;>
      simp only [matr.PointTransform, matr.Scale, vec3.mul, mul_zero, add_zero, zero_add]

/-- C30. Transposing a matrix twice gives the matrix back, in all sixteen entries. -/
theorem Transpose_Transpose (M : matr K) : M.Transpose.Transpose = M := by
  ext <;> rfl

end Builders

section InverseTwice

variable {K : Type}

/-- The product of `matr` is the product of the matrices of Mathlib. -/
lemma toMatrix_mul [Semiring K] (a b : matr K) :
    (a.mul b).toMatrix = a.toMatrix * b.toMatrix := by
  ext i j
  fin_cases i <;> fin_cases j <;>
    simp [matr.toMatrix, matr.mul, Matrix.mul_apply, Fin.sum_univ_four]

/-- The identity of `matr` is the identity matrix of Mathlib. -/
lemma toMatrix_Identity [Semiring K] : (matr.Identity : matr K).toMatrix = 1 := by
  ext i j
  fin_cases i <;> fin_cases j <;> rfl

/-- A `matr` is determined by its matrix of entries. -/
lemma toMatrix_injective (a b : matr K) (h : a.toMatrix = b.toMatrix) : a = b := by
  have e : ∀ i j, a.toMatrix i j = b.toMatrix i j := fun i j => by rw [h]
  ext
  · exact e 0 0
  · exact e 0 1
  · exact e 0 2
  · exact e 0 3
  · exact e 1 0
  · exact e 1 1
  · exact e 1 2
  · exact e 1 3
  · exact e 2 0
  · exact e 2 1
  · exact e 2 2
  · exact e 2 3
  · exact e 3 0
  · exact e 3 1
  · exact e 3 2
  · exact e 3 3

/-- Over a field, the matrix of entries of a `matr` with non-zero determinant times the
matrix of entries of its `Inverse()` is the identity matrix. -/
lemma toMatrix_mul_toMatrix_Inverse [Field K] [DecidableEq K] (M : matr K) (h : M.det ≠ 0) :
    M.toMatrix * M.Inverse.toMatrix = 1 := by
  have hmul : M.mul M.Inverse = matr.Identity := by
    rw [matr_Inverse_of_det_ne_zero M h]
    ext <;> simp only [matr.mul, matr.Identity] <;>
      rw [sum_mul_div_same, div_eq_iff h] <;>
      simp only [matr.det, matr.Determ4x4, matr.Determ3x3] <;> ring
  rw [← toMatrix_mul, hmul, toMatrix_Identity]

/-- The determinant of Mathlib of the matrix of entries, expanded along row 0, is the
determinant operator of `matr`. -/
lemma Matrix_det_toMatrix [CommRing K] (M : matr K) : Matrix.det M.toMatrix = M.det := by
  have m0 : M.toMatrix.submatrix Fin.succ (Fin.succAbove 0)
      = !![M.A11, M.A12, M.A13; M.A21, M.A22, M.A23; M.A31, M.A32, M.A33] := by
    ext i j; fin_cases i <;> fin_cases j <;> rfl
  have m1 : M.toMatrix.submatrix Fin.succ (Fin.succAbove 1)
      = !![M.A10, M.A12, M.A13; M.A20, M.A22, M.A23; M.A30, M.A32, M.A33] := by
    ext i j; fin_cases i <;> fin_cases j <;> rfl
  have m2 : M.toMatrix.submatrix Fin.succ (Fin.succAbove 2)
      = !![M.A10, M.A11, M.A13; M.A20, M.A21, M.A23; M.A30, M.A31, M.A33] := by
    ext i j; fin_cases i <;> fin_cases j <;> rfl
  have m3 : M.toMatrix.submatrix Fin.succ (Fin.succAbove 3)
      = !![M.A10, M.A11, M.A12; M.A20, M.A21, M.A22; M.A30, M.A31, M.A32] := by
    ext i j; fin_cases i <;> fin_cases j <;> rfl
  have e0 : M.toMatrix 0 0 = M.A00 := rfl
  have e1 : M.toMatrix 0 1 = M.A01 := rfl
  have e2 : M.toMatrix 0 2 = M.A02 := rfl
  have e3 : M.toMatrix 0 3 = M.A03 := rfl
  rw [Matrix.det_succ_row_zero, Fin.sum_univ_four, m0, m1, m2, m3, e0, e1, e2, e3]
  have v1 : ((1 : Fin 4) : ℕ) = 1 := rfl
  have v2 : ((2 : Fin 4) : ℕ) = 2 := rfl
  have v3 : ((3 : Fin 4) : ℕ) = 3 := rfl
  simp only [Matrix.det_fin_three, matr.det, matr.Determ4x4, matr.Determ3x3, Fin.val_zero,
    v1, v2, v3, Matrix.of_apply, Matrix.cons_val_zero, Matrix.cons_val_one, Matrix.cons_val_two,
    Matrix.head_cons, Matrix.tail_cons, Matrix.cons_val_succ]
  ring

/-- C22. Over a field, for a matrix with non-zero determinant, `Inverse()` of `Inverse()`
is the matrix itself. -/
theorem Inverse_Inverse [Field K] [DecidableEq K] (M : matr K) (h : M.det ≠ 0) :
    M.Inverse.Inverse = M := by
  have hMN := toMatrix_mul_toMatrix_Inverse M h
  have hdet : M.Inverse.det ≠ 0 := by
    rw [← Matrix_det_toMatrix]
    intro h0
    have hd := congrArg Matrix.det hMN
    rw [Matrix.det_mul, h0, mul_zero, Matrix.det_one] at hd
    exact zero_ne_one hd
  have hNI := toMatrix_mul_toMatrix_Inverse M.Inverse hdet
  apply toMatrix_injective
  calc M.Inverse.Inverse.toMatrix
      = (M.toMatrix * M.Inverse.toMatrix) * M.Inverse.Inverse.toMatrix := by
        rw [hMN, one_mul]
    _ = M.toMatrix * (M.Inverse.toMatrix * M.Inverse.Inverse.toMatrix) := by
        rw [mul_assoc]
    _ = M.toMatrix := by rw [hNI, mul_one]

/-- C22, at the scale by two followed by a translation. -/
theorem Inverse_Inverse_witness :
    matr.det (⟨2, 0, 0, 0, 0, 2, 0, 0, 0, 0, 2, 0, 1, 2, 3, 1⟩ : matr ℚ) ≠ 0 ∧
    matr.Inverse (matr.Inverse (⟨2, 0, 0, 0, 0, 2, 0, 0, 0, 0, 2, 0, 1, 2, 3, 1⟩ : matr ℚ))
      = ⟨2, 0, 0, 0, 0, 2, 0, 0, 0, 0, 2, 0, 1, 2, 3, 1⟩ :=
  ⟨by norm_num [matr.det, matr.Determ4x4, matr.Determ3x3],
   Inverse_Inverse _ (by norm_num [matr.det, matr.Determ4x4, matr.Determ3x3])⟩

end InverseTwice

section Normalization

variable {K : Type}

/-- C28. `vec3::Normalize` (and `Normalizing`) of a vector with all three components zero
returns the vector, whatever the square root and the division do; over the reals, of a
vector that is not zero it returns the vector divided by its length, and the result has
length one. -/
theorem Normalize_spec [Zero K] [Add K] [Mul K] [Div K] [DecidableEq K] (sqrt : K → K)
    (z : vec3 K) (v : vec3 ℝ) :
    (z.X = 0 ∧ z.Y = 0 ∧ z.Z = 0 → z.Normalize sqrt = z ∧ z.Normalizing sqrt = z) ∧
    (¬ (v.X = 0 ∧ v.Y = 0 ∧ v.Z = 0) →
      v.Normalize Real.sqrt = v.divScalar (v.Length Real.sqrt) ∧
      v.Normalizing Real.sqrt = v.divScalar (v.Length Real.sqrt) ∧
      (v.Normalize Real.sqrt).Length Real.sqrt = 1) := by
  constructor
  · intro hz
    refine ⟨by simp only [vec3.Normalize, if_pos hz], ?_⟩
    simp only [vec3.Normalizing, if_pos hz]
    ext
    · exact hz.1.symm
    · exact hz.2.1.symm
    · exact hz.2.2.symm
  · intro hv
    refine ⟨by simp only [vec3.Normalize, if_neg hv], by simp only [vec3.Normalizing, if_neg hv],
      ?_⟩
    obtain ⟨k, _, hN, hk⟩ := vec3_Normalize_scale v hv
    have hL2 : (v.Normalize Real.sqrt).Length2 = 1 := by
      rw [hN]; exact vec3_Length2_mulScalar v k hk
    have hL : (v.Normalize Real.sqrt).Length Real.sqrt
        = Real.sqrt (v.Normalize Real.sqrt).Length2 := rfl
    rw [hL, hL2, Real.sqrt_one]

/-- C28, at the zero vector and at `(3, 4, 0)`. -/
theorem Normalize_spec_witness :
    ((0 : ℝ) = 0 ∧ (0 : ℝ) = 0 ∧ (0 : ℝ) = 0) ∧
    vec3.Normalize Real.sqrt (⟨0, 0, 0⟩ : vec3 ℝ) = ⟨0, 0, 0⟩ ∧
    ¬ ((3 : ℝ) = 0 ∧ (4 : ℝ) = 0 ∧ (0 : ℝ) = 0) ∧
    (vec3.Normalize Real.sqrt (⟨3, 4, 0⟩ : vec3 ℝ)).Length Real.sqrt = 1 :=
  ⟨⟨rfl, rfl, rfl⟩,
   ((Normalize_spec Real.sqrt (⟨0, 0, 0⟩ : vec3 ℝ) ⟨3, 4, 0⟩).1 ⟨rfl, rfl, rfl⟩).1,
   fun h => by have h3 := h.1; norm_num at h3,
   ((Normalize_spec Real.sqrt (⟨0, 0, 0⟩ : vec3 ℝ) ⟨3, 4, 0⟩).2
      (fun h => by have h3 := h.1; norm_num at h3)).2.2⟩

/-- C29 as stated fails.  `quat::Normalized` has no test for zero magnitude: for the
quaternion `(0,0,0,0)` the divisor is `sqrt(0) = 0`, the four quotients `0 / 0` have no
value, and the result is not that quaternion. -/
theorem Normalized_zero_ne :
    quat.Normalized Real.sqrt (⟨0, 0, 0, 0⟩ : quat ℝ) = none ∧
    quat.Normalized Real.sqrt (⟨0, 0, 0, 0⟩ : quat ℝ) ≠ some ⟨0, 0, 0, 0⟩ := by
  have hv : quat.Normalized Real.sqrt (⟨0, 0, 0, 0⟩ : quat ℝ) = none := by
    norm_num [quat.Normalized, quat.normSq]
  refine ⟨hv, ?_⟩
  rw [hv]
  exact fun h => Option.noConfusion h

/-- C29, amended.  Over the reals `Normalized()` is not guarded: a quaternion of zero
squared norm (all four components zero) is divided by `sqrt(0) = 0` and the result has no
value; a quaternion of non-zero squared norm is divided, component by component, by the
square root of its squared norm. -/
theorem Normalized_spec (q : quat ℝ) :
    (q.normSq = 0 → quat.Normalized Real.sqrt q = none) ∧
    (q.normSq ≠ 0 →
      quat.Normalized Real.sqrt q = some (q.divScalar (Real.sqrt q.normSq))) := by
  constructor
  · intro h0
    simp only [quat.Normalized, h0, Real.sqrt_zero, if_true]
  · intro hne
    have hnn : 0 ≤ q.normSq := by
      simp only [quat.normSq]
      nlinarith [mul_self_nonneg q.W, mul_self_nonneg q.X, mul_self_nonneg q.Y,
        mul_self_nonneg q.Z]
    have hpos : 0 < q.normSq := lt_of_le_of_ne hnn (Ne.symm hne)
    have hs : Real.sqrt q.normSq ≠ 0 := (Real.sqrt_pos.mpr hpos).ne'
    simp only [quat.Normalized, if_neg hs, quat.divScalar]

/-- C29 amended, at the zero quaternion and at `(0, 0, 3, 4)`. -/
theorem Normalized_spec_witness :
    quat.normSq (⟨0, 0, 0, 0⟩ : quat ℝ) = 0 ∧
    quat.Normalized Real.sqrt (⟨0, 0, 0, 0⟩ : quat ℝ) = none ∧
    quat.normSq (⟨0, 0, 3, 4⟩ : quat ℝ) ≠ 0 ∧
    quat.Normalized Real.sqrt (⟨0, 0, 3, 4⟩ : quat ℝ)
      = some (quat.divScalar ⟨0, 0, 3, 4⟩ (Real.sqrt (quat.normSq (⟨0, 0, 3, 4⟩ : quat ℝ)))) :=
  ⟨by norm_num [quat.normSq],
   (Normalized_spec ⟨0, 0, 0, 0⟩).1 (by norm_num [quat.normSq]),
   by norm_num [quat.normSq],
   (Normalized_spec ⟨0, 0, 3, 4⟩).2 (by norm_num [quat.normSq])⟩

end Normalization

section InPlaceSelf

/-- C31. `M *= M` is not the product `M * M`.  For the matrix with rows `(2,0,0,0)`,
`(1,1,0,0)`, `(0,0,1,0)`, `(0,0,0,1)` the first assignment stores `A[0][0] = 4`; the fifth
reads that new value through the argument, `A[1][0] = s.A[1][0] * m.A[0][0] + s.A[1][1] * m.A[1][0]
= 1 * 4 + 1 * 1 = 5`, where the product has `1 * 2 + 1 * 1 = 3`. -/
theorem mulAssign_self_ne_mul :
    matr.mulAssignWith id (⟨2, 0, 0, 0, 1, 1, 0, 0, 0, 0, 1, 0, 0, 0, 0, 1⟩ : matr ℚ)
      = ⟨4, 0, 0, 0, 5, 1, 0, 0, 0, 0, 1, 0, 0, 0, 0, 1⟩ ∧
    matr.mul (⟨2, 0, 0, 0, 1, 1, 0, 0, 0, 0, 1, 0, 0, 0, 0, 1⟩ : matr ℚ)
        ⟨2, 0, 0, 0, 1, 1, 0, 0, 0, 0, 1, 0, 0, 0, 0, 1⟩
      = ⟨4, 0, 0, 0, 3, 1, 0, 0, 0, 0, 1, 0, 0, 0, 0, 1⟩ ∧
    matr.mulAssignWith id (⟨2, 0, 0, 0, 1, 1, 0, 0, 0, 0, 1, 0, 0, 0, 0, 1⟩ : matr ℚ)
      ≠ matr.mul (⟨2, 0, 0, 0, 1, 1, 0, 0, 0, 0, 1, 0, 0, 0, 0, 1⟩ : matr ℚ)
          ⟨2, 0, 0, 0, 1, 1, 0, 0, 0, 0, 1, 0, 0, 0, 0, 1⟩ := by
  have hA : matr.mulAssignWith id (⟨2, 0, 0, 0, 1, 1, 0, 0, 0, 0, 1, 0, 0, 0, 0, 1⟩ : matr ℚ)
      = ⟨4, 0, 0, 0, 5, 1, 0, 0, 0, 0, 1, 0, 0, 0, 0, 1⟩ := by
    ext <;> simp only [matr.mulAssignWith, id] <;> norm_num
  have hP : matr.mul (⟨2, 0, 0, 0, 1, 1, 0, 0, 0, 0, 1, 0, 0, 0, 0, 1⟩ : matr ℚ)
      ⟨2, 0, 0, 0, 1, 1, 0, 0, 0, 0, 1, 0, 0, 0, 0, 1⟩
      = ⟨4, 0, 0, 0, 3, 1, 0, 0, 0, 0, 1, 0, 0, 0, 0, 1⟩ := by
    ext <;> simp only [matr.mul] <;> norm_num
  refine ⟨hA, hP, ?_⟩
  rw [hA, hP]
  intro h
  have h10 := congrArg matr.A10 h
  norm_num at h10

end InPlaceSelf

section TransformLaws

variable {K : Type}

/-- C32. For a matrix `A` whose fourth column is `(0,0,0,1)` and any matrix `B`,
`(A * B).PointTransform(v)` is `B.PointTransform(A.PointTransform(v))` and
`(A * B).VectorTransform(v)` is `B.VectorTransform(A.VectorTransform(v))`: the left factor
acts first. -/
theorem mul_PointTransform [CommRing K] (A B : matr K) (v : vec3 K)
    (h03 : A.A03 = 0) (h13 : A.A13 = 0) (h23 : A.A23 = 0) (h33 : A.A33 = 1) :
    (A.mul B).PointTransform v = B.PointTransform (A.PointTransform v) ∧
    (A.mul B).VectorTransform v = B.VectorTransform (A.VectorTransform v) := by
  constructor
  · ext <;> simp only [matr.PointTransform, matr.mul, h03, h13, h23, h33] <;> ring
  · ext <;> simp only [matr.VectorTransform, matr.mul, h03, h13, h23] <;> ring

/-- C32, at a scale followed by a translation and a matrix with a full fourth column. -/
theorem mul_PointTransform_witness :
    (matr.mul (⟨2, 0, 0, 0, 0, 3, 0, 0, 0, 0, 4, 0, 1, 2, 3, 1⟩ : matr ℚ)
        ⟨1, 2, 3, 4, 5, 6, 7, 8, 9, 10, 11, 12, 13, 14, 15, 16⟩).PointTransform ⟨1, 1, 1⟩
      = matr.PointTransform ⟨1, 2, 3, 4, 5, 6, 7, 8, 9, 10, 11, 12, 13, 14, 15, 16⟩
          (matr.PointTransform (⟨2, 0, 0, 0, 0, 3, 0, 0, 0, 0, 4, 0, 1, 2, 3, 1⟩ : matr ℚ)
            ⟨1, 1, 1⟩) :=
  (mul_PointTransform (⟨2, 0, 0, 0, 0, 3, 0, 0, 0, 0, 4, 0, 1, 2, 3, 1⟩ : matr ℚ)
    ⟨1, 2, 3, 4, 5, 6, 7, 8, 9, 10, 11, 12, 13, 14, 15, 16⟩ ⟨1, 1, 1⟩ rfl rfl rfl rfl).1

/-- C37. The squared norm is multiplicative over the Hamilton product, and the product of
two unit quaternions is a unit quaternion. -/
theorem normSq_mul [CommRing K] (p q : quat K) :
    (p.mul q).normSq = p.normSq * q.normSq ∧
    (p.normSq = 1 → q.normSq = 1 → (p.mul q).normSq = 1) := by
  have hmul : (p.mul q).normSq = p.normSq * q.normSq := by
    simp only [quat.normSq, quat.mul]
    ring
  refine ⟨hmul, ?_⟩
  intro hp hq
  rw [hmul, hp, hq, mul_one]

/-- C37, at the unit quaternions `(3/5, 0, 4/5, 0)` and `(0, 0, 0, 1)`. -/
theorem normSq_mul_witness :
    quat.normSq (⟨3 / 5, 0, 4 / 5, 0⟩ : quat ℚ) = 1 ∧ quat.normSq (⟨0, 0, 0, 1⟩ : quat ℚ) = 1 ∧
    (quat.mul (⟨3 / 5, 0, 4 / 5, 0⟩ : quat ℚ) ⟨0, 0, 0, 1⟩).normSq = 1 :=
  ⟨by norm_num [quat.normSq], by norm_num [quat.normSq],
   (normSq_mul (⟨3 / 5, 0, 4 / 5, 0⟩ : quat ℚ) ⟨0, 0, 0, 1⟩).2
     (by norm_num [quat.normSq]) (by norm_num [quat.normSq])⟩

/-- C36. For a unit quaternion, `M = RotateMatr()` is a proper rotation: `M` times its
transpose is the identity and the determinant of `M` is one. -/
theorem RotateMatr_rotation [CommRing K] (q : quat K) (h : q.normSq = 1) :
    q.RotateMatr.mul q.RotateMatr.Transpose = matr.Identity ∧ q.RotateMatr.det = 1 := by
  simp only [quat.normSq] at h
  constructor
  · ext
    · simp only [quat.RotateMatr, matr.mul, matr.Transpose, matr.Identity]
      linear_combination (4 * q.Y * q.Y + 4 * q.Z * q.Z) * h
    · simp only [quat.RotateMatr, matr.mul, matr.Transpose, matr.Identity]
      linear_combination (-(4 * q.X * q.Y)) * h
    · simp only [quat.RotateMatr, matr.mul, matr.Transpose, matr.Identity]
      linear_combination (-(4 * q.X * q.Z)) * h
    · simp only [quat.RotateMatr, matr.mul, matr.Transpose, matr.Identity]; ring
    · simp only [quat.RotateMatr, matr.mul, matr.Transpose, matr.Identity]
      linear_combination (-(4 * q.X * q.Y)) * h
    · simp only [quat.RotateMatr, matr.mul, matr.Transpose, matr.Identity]
      linear_combination (4 * q.X * q.X + 4 * q.Z * q.Z) * h
    · simp only [quat.RotateMatr, matr.mul, matr.Transpose, matr.Identity]
      linear_combination (-(4 * q.Y * q.Z)) * h
    · simp only [quat.RotateMatr, matr.mul, matr.Transpose, matr.Identity]; ring
    · simp only [quat.RotateMatr, matr.mul, matr.Transpose, matr.Identity]
      linear_combination (-(4 * q.X * q.Z)) * h
    · simp only [quat.RotateMatr, matr.mul, matr.Transpose, matr.Identity]
      linear_combination (-(4 * q.Y * q.Z)) * h
    · simp only [quat.RotateMatr, matr.mul, matr.Transpose, matr.Identity]
      linear_combination (4 * q.X * q.X + 4 * q.Y * q.Y) * h
    · simp only [quat.RotateMatr, matr.mul, matr.Transpose, matr.Identity]; ring
    · simp only [quat.RotateMatr, matr.mul, matr.Transpose, matr.Identity]; ring
    · simp only [quat.RotateMatr, matr.mul, matr.Transpose, matr.Identity]; ring
    · simp only [quat.RotateMatr, matr.mul, matr.Transpose, matr.Identity]; ring
    · simp only [quat.RotateMatr, matr.mul, matr.Transpose, matr.Identity]; ring
  · simp only [quat.RotateMatr, matr.det, matr.Determ4x4, matr.Determ3x3]
    linear_combination (4 * (q.X * q.X + q.Y * q.Y + q.Z * q.Z)) * h

/-- C36, at the unit quaternion `(3/5, 0, 4/5, 0)`. -/
theorem RotateMatr_rotation_witness :
    quat.normSq (⟨3 / 5, 0, 4 / 5, 0⟩ : quat ℚ) = 1 ∧
    (quat.RotateMatr (⟨3 / 5, 0, 4 / 5, 0⟩ : quat ℚ)).mul
        (quat.RotateMatr (⟨3 / 5, 0, 4 / 5, 0⟩ : quat ℚ)).Transpose = matr.Identity ∧
    (quat.RotateMatr (⟨3 / 5, 0, 4 / 5, 0⟩ : quat ℚ)).det = 1 :=
  ⟨by norm_num [quat.normSq],
   RotateMatr_rotation (⟨3 / 5, 0, 4 / 5, 0⟩ : quat ℚ) (by norm_num [quat.normSq])⟩

/-- C35. Over a field, for a matrix with non-zero determinant whose fourth column is zero
above the corner (in particular for a fourth column `(0,0,0,1)`), the dot product of
`NormalTransform(n)` and `VectorTransform(t)` is the dot product of `n` and `t`. -/
theorem NormalTransform_dot_VectorTransform [Field K] [DecidableEq K] (M : matr K)
    (n t : vec3 K) (h : M.det ≠ 0) (h03 : M.A03 = 0) (h13 : M.A13 = 0) (h23 : M.A23 = 0) :
    (M.NormalTransform n).dot (M.VectorTransform t) = n.dot t := by
  have hT := block_mul_Inverse_block M h h03 h13 h23
  have e00 := congrArg tensor.A00 hT
  have e01 := congrArg tensor.A01 hT
  have e02 := congrArg tensor.A02 hT
  have e10 := congrArg tensor.A10 hT
  have e11 := congrArg tensor.A11 hT
  have e12 := congrArg tensor.A12 hT
  have e20 := congrArg tensor.A20 hT
  have e21 := congrArg tensor.A21 hT
  have e22 := congrArg tensor.A22 hT
  simp only [tensor.mul, tensor.Identity] at e00 e01 e02 e10 e11 e12 e20 e21 e22
  simp only [matr.NormalTransform, matr.VectorTransform, matr.Transpose, vec3.dot]
  linear_combination n.X * t.X * e00 + n.Y * t.X * e01 + n.Z * t.X * e02
      + n.X * t.Y * e10 + n.Y * t.Y * e11 + n.Z * t.Y * e12
      + n.X * t.Z * e20 + n.Y * t.Z * e21 + n.Z * t.Z * e22

/-- C35, at the scale by `(2, 3, 4)` followed by a translation. -/
theorem NormalTransform_dot_VectorTransform_witness :
    matr.det (⟨2, 0, 0, 0, 0, 3, 0, 0, 0, 0, 4, 0, 1, 2, 3, 1⟩ : matr ℚ) ≠ 0 ∧
    (matr.NormalTransform (⟨2, 0, 0, 0, 0, 3, 0, 0, 0, 0, 4, 0, 1, 2, 3, 1⟩ : matr ℚ)
        ⟨1, 2, 3⟩).dot
      (matr.VectorTransform (⟨2, 0, 0, 0, 0, 3, 0, 0, 0, 0, 4, 0, 1, 2, 3, 1⟩ : matr ℚ)
        ⟨4, 5, 6⟩)
      = vec3.dot (⟨1, 2, 3⟩ : vec3 ℚ) ⟨4, 5, 6⟩ :=
  ⟨by norm_num [matr.det, matr.Determ4x4, matr.Determ3x3],
   NormalTransform_dot_VectorTransform _ ⟨1, 2, 3⟩ ⟨4, 5, 6⟩
     (by norm_num [matr.det, matr.Determ4x4, matr.Determ3x3]) rfl rfl rfl⟩

/-- C38. Over a field, for `n` and `f` non-zero and different, the matrix
`Frustum(l, r, t, b, n, f)` applied with `Transform4x4` sends every point `(x, y, -n)` of the
near plane to depth `-1` and every point `(x, y, -f)` of the far plane to depth `1`; the
perspective divisors are `n` and `f`. -/
theorem Frustum_depth [Field K] [DecidableEq K] (l r t b n f x y : K)
    (hn : n ≠ 0) (hf : f ≠ 0) (hnf : n ≠ f) :
    (matr.Transform4x4 (matr.Frustum l r t b n f) ⟨x, y, -n⟩).map vec3.Z = some (-1) ∧
    (matr.Transform4x4 (matr.Frustum l r t b n f) ⟨x, y, -f⟩).map vec3.Z = some 1 := by
  have hsub : n - f ≠ 0 := sub_ne_zero.mpr hnf
  have dn : x * 0 + y * 0 + -n * -1 + 0 = n := by ring
  have df : x * 0 + y * 0 + -f * -1 + 0 = f := by ring
  constructor
  · simp only [matr.Transform4x4, matr.Frustum, dn, if_neg hn, Option.map_some',
      Option.some.injEq]
    field_simp
    ring
  · simp only [matr.Transform4x4, matr.Frustum, df, if_neg hf, Option.map_some',
      Option.some.injEq]
    field_simp
    ring

/-- C38, at `Frustum(-1, 1, -1, 1, 1, 100)` and the points `(2, 3, -1)`, `(2, 3, -100)`. -/
theorem Frustum_depth_witness :
    (1 : ℚ) ≠ 0 ∧ (100 : ℚ) ≠ 0 ∧ (1 : ℚ) ≠ 100 ∧
    (matr.Transform4x4 (matr.Frustum (-1 : ℚ) 1 (-1) 1 1 100) ⟨2, 3, -1⟩).map vec3.Z
      = some (-1) ∧
    (matr.Transform4x4 (matr.Frustum (-1 : ℚ) 1 (-1) 1 1 100) ⟨2, 3, -100⟩).map vec3.Z
      = some 1 :=
  ⟨by norm_num, by norm_num, by norm_num,
   Frustum_depth (-1 : ℚ) 1 (-1) 1 1 100 2 3 (by norm_num) (by norm_num) (by norm_num)⟩

end TransformLaws

section CameraDefault

variable {K : Type}

/-- The zero matrix times any matrix is the zero matrix. -/
lemma ctor_mul [Semiring K] (m : matr K) : (matr.ctor : matr K).mul m = matr.ctor := by
  ext <;> simp only [matr.mul, matr.ctor, zero_mul, add_zero]

/-- C40. The default-constructed camera has the zero matrix as `MatrView`; after `ProjSet()`
and after `Resize(W, H)` with both sizes non-zero its `MatrVP` is the zero matrix.  The same
holds after `ProjSet()` for every camera whose `MatrView` is the zero matrix. -/
theorem ctor_MatrVP_zero [Field K] [DecidableEq K] (sqrt : K → K) (c : camera K) (W H : Int) :
    (camera.ctor sqrt).MatrView = matr.ctor ∧
    (camera.ctor sqrt).ProjSet.MatrVP = matr.ctor ∧
    (W ≠ 0 → H ≠ 0 → ((camera.ctor sqrt).Resize W H).MatrVP = matr.ctor) ∧
    (c.MatrView = matr.ctor → c.ProjSet.MatrVP = matr.ctor) := by
  have hP : ∀ c0 : camera K, c0.MatrView = matr.ctor → c0.ProjSet.MatrVP = matr.ctor := by
    intro c0 h0
    simp only [camera.ProjSet, h0, ctor_mul]
  refine ⟨rfl, hP _ rfl, ?_, hP c⟩
  intro hW hH
  have hcond : ¬ (W = 0 ∨ H = 0) := not_or.mpr ⟨hW, hH⟩
  simp only [camera.Resize, if_neg hcond]
  exact hP _ rfl

/-- C40, at the default-constructed camera over the reals resized to 800 x 600. -/
theorem ctor_MatrVP_zero_witness :
    (800 : Int) ≠ 0 ∧ (600 : Int) ≠ 0 ∧
    ((camera.ctor Real.sqrt).Resize 800 600).MatrVP = matr.ctor :=
  ⟨by decide, by decide,
   (ctor_MatrVP_zero Real.sqrt (camera.ctor Real.sqrt) 800 600).2.2.1 (by decide) (by decide)⟩

end CameraDefault

section ViewPoints

variable {K : Type}

/-- The image of a point under the matrix of `View`, in the basis of `View`: the three
components are the dot products of the offset from `Loc` with `Right`, `Up` and `-Dir`. -/
lemma View_PointTransform [Field K] [DecidableEq K] (sqrt : K → K) (Loc At Up1 p : vec3 K) :
    (matr.View sqrt Loc At Up1).PointTransform p =
      ⟨(p.sub Loc).dot ((((At.sub Loc).Normalize sqrt).cross Up1).Normalize sqrt),
       (p.sub Loc).dot (((((At.sub Loc).Normalize sqrt).cross Up1).Normalize sqrt).cross
          ((At.sub Loc).Normalize sqrt)),
       -((p.sub Loc).dot ((At.sub Loc).Normalize sqrt))⟩ := by
  ext <;> simp only [matr.PointTransform, matr.View, vec3.dot, vec3.neg, vec3.sub] <;> ring

/-- A vector that differs from another has a non-zero difference. -/
lemma vec3_sub_ne_zero [AddGroup K] (a b : vec3 K) (hne : a ≠ b) :
    ¬ ((a.sub b).X = 0 ∧ (a.sub b).Y = 0 ∧ (a.sub b).Z = 0) := by
  rintro ⟨hx, hy, hz⟩
  apply hne
  simp only [vec3.sub] at hx hy hz
  ext
  · exact sub_eq_zero.mp hx
  · exact sub_eq_zero.mp hy
  · exact sub_eq_zero.mp hz

/-- C33. The matrix of `View(eye, target, up)` sends `eye` to the origin, for all inputs
and every square root function; over the reals, for `target` different from `eye` and `up`
not parallel to `target - eye`, it sends `target` to `(0, 0, -|target - eye|)`. -/
theorem View_PointTransform_eye_target [Field K] [DecidableEq K] (sqrt : K → K)
    (e t u : vec3 K) (eye target up : vec3 ℝ) :
    (matr.View sqrt e t u).PointTransform e = ⟨0, 0, 0⟩ ∧
    (target ≠ eye → (target.sub eye).cross up ≠ ⟨0, 0, 0⟩ →
      (matr.View Real.sqrt eye target up).PointTransform target
        = ⟨0, 0, -(target.sub eye).Length Real.sqrt⟩) := by
  constructor
  · rw [View_PointTransform]
    ext <;> simp only [vec3.dot, vec3.sub, sub_self, zero_mul, add_zero, neg_zero]
  · intro hne hpar
    have hd := vec3_sub_ne_zero target eye hne
    have hpos := vec3_sum_sq_pos (target.sub eye) hd
    have hL : Real.sqrt ((target.sub eye).X * (target.sub eye).X
        + (target.sub eye).Y * (target.sub eye).Y
        + (target.sub eye).Z * (target.sub eye).Z) ≠ 0 := (Real.sqrt_pos.mpr hpos).ne'
    have hLL := Real.mul_self_sqrt hpos.le
    have hDeq : (target.sub eye).Normalize Real.sqrt
        = (target.sub eye).divScalar ((target.sub eye).Length Real.sqrt) := by
      simp only [vec3.Normalize, if_neg hd]
    obtain ⟨-, -, hRD⟩ := View_Dir_Right eye target up hne hpar
    rw [View_PointTransform]
    generalize (((target.sub eye).Normalize Real.sqrt).cross up).Normalize Real.sqrt = R
      at hRD ⊢
    rw [hDeq] at hRD ⊢
    generalize target.sub eye = d at hL hLL hRD ⊢
    simp only [vec3.Length] at hRD ⊢
    generalize Real.sqrt (d.X * d.X + d.Y * d.Y + d.Z * d.Z) = L at hL hLL hRD ⊢
    simp only [vec3.dot, vec3.divScalar] at hRD
    have hRd : R.X * d.X + R.Y * d.Y + R.Z * d.Z = 0 := by
      have h2 : (R.X * d.X + R.Y * d.Y + R.Z * d.Z) / L = 0 := by
        rw [← hRD]
        ring
      exact (div_eq_zero_iff.mp h2).resolve_right hL
    ext
    · simp only [vec3.dot]
      linear_combination hRd
    · simp only [vec3.dot, vec3.cross, vec3.divScalar]
      field_simp
      ring
    · simp only [vec3.dot, vec3.divScalar]
      field_simp
      linear_combination hLL

/-- C33, at `eye = (0, 0, 5)`, `target = (0, 0, 0)`, `up = (0, 1, 0)`. -/
theorem View_PointTransform_eye_target_witness :
    (⟨0, 0, 0⟩ : vec3 ℝ) ≠ ⟨0, 0, 5⟩ ∧
    (vec3.sub (⟨0, 0, 0⟩ : vec3 ℝ) ⟨0, 0, 5⟩).cross ⟨0, 1, 0⟩ ≠ ⟨0, 0, 0⟩ ∧
    (matr.View Real.sqrt (⟨0, 0, 5⟩ : vec3 ℝ) ⟨0, 0, 0⟩ ⟨0, 1, 0⟩).PointTransform ⟨0, 0, 0⟩
      = ⟨0, 0, -(vec3.sub (⟨0, 0, 0⟩ : vec3 ℝ) ⟨0, 0, 5⟩).Length Real.sqrt⟩ :=
  ⟨fun h => by
      have hz := congrArg vec3.Z h
      norm_num at hz,
   fun h => by
      have hx := congrArg vec3.X h
      norm_num [vec3.sub, vec3.cross] at hx,
   (View_PointTransform_eye_target Real.sqrt (⟨0, 0, 5⟩ : vec3 ℝ) ⟨0, 0, 0⟩ ⟨0, 1, 0⟩
      ⟨0, 0, 5⟩ ⟨0, 0, 0⟩ ⟨0, 1, 0⟩).2
     (fun h => by
        have hz := congrArg vec3.Z h
        norm_num at hz)
     (fun h => by
        have hx := congrArg vec3.X h
        norm_num [vec3.sub, vec3.cross] at hx)⟩

end ViewPoints

end mth
